import Mathlib

set_option maxRecDepth 10000

/-!
Verification development for the JSON repair pipeline of `src/main.py`
(class `JSONRepairProcessor`).  Texts are modelled as `List Char`, i.e. as
sequences of Unicode code points, which matches Python `str` indexing.
Python regular expressions are embedded as dedicated scanner functions that
produce the list of non-overlapping left-to-right matches together with the
expanded replacement text, and `_sub_outside_strings` filters and rebuilds
exactly as the source does.  The strict JSON parser (`json.loads`) and the
serializers (`json.dumps` with and without `indent=2`) are external to the
repository; they are embedded here in a faithful fragment: the integer part
of the number grammar (no float repr modelling), no `NaN`/`Infinity`
constants, and no lone-surrogate `\uXXXX` escapes.  Error messages follow
CPython's `JSONDecodeError` rendering `msg: line L column C (char P)`,
which is what the error-guided transforms of the source probe.
Unbounded `while` loops of the source are embedded with an explicit fuel
that is provably sufficient (each iteration either stops or strictly
shrinks the text / advances the cursor).
-/

namespace JsonRepair

/-- Text as a list of code points, mirroring Python `str` indexing. -/
abbrev Text := List Char

/-- Python `str` whitespace used by `strip`, `lstrip`, `rstrip` (ASCII part). -/
def pyStrWs (c : Char) : Bool :=
  c = ' ' || c = '\t' || c = '\n' || c = '\r' || c = '\x0b' || c = '\x0c'

/-- The class `\s` of Python regular expressions (ASCII part). -/
def reWs (c : Char) : Bool :=
  c = ' ' || c = '\t' || c = '\n' || c = '\r' || c = '\x0b' || c = '\x0c'

/-- The explicit whitespace set `" \t\r\n"` spelled out in several transforms. -/
def setWs (c : Char) : Bool :=
  c = ' ' || c = '\t' || c = '\r' || c = '\n'

/-- The class `\w` of Python regular expressions (ASCII part). -/
def wordChar (c : Char) : Bool :=
  c.isAlpha || c.isDigit || c = '_'

/-- Character of the text at index `i`, if any (Python `s[i]` guarded). -/
def at? (s : Text) (i : Nat) : Option Char := (s.drop i).head?

/-- Number of leading characters satisfying `p`. -/
def skipCount (p : Char → Bool) : Text → Nat
  | [] => 0
  | c :: t => if p c then skipCount p t + 1 else 0

/-- First index `j ≥ i` whose character fails `p` (or the text length). -/
def skipFrom (p : Char → Bool) (s : Text) (i : Nat) : Nat :=
  i + skipCount p (s.drop i)

/-- Python slice comparison `s[i:i+len(pat)] == pat`. -/
def sliceEq (s : Text) (i : Nat) (pat : Text) : Bool :=
  decide ((s.drop i).take pat.length = pat)

/-- Python substring test `pat in s`. -/
def containsSub (s pat : Text) : Bool :=
  (List.range (s.length + 1)).any fun i => sliceEq s i pat

/-- Python `str.endswith`. -/
def endsWithL (s pat : Text) : Bool :=
  decide (pat.length ≤ s.length) && sliceEq s (s.length - pat.length) pat

/-- Python `str.lstrip()`. -/
def lstripL (s : Text) : Text := s.dropWhile pyStrWs

/-- Python `str.rstrip()`. -/
def rstripL (s : Text) : Text := (s.reverse.dropWhile pyStrWs).reverse

/-- Python `str.strip()`. -/
def stripL (s : Text) : Text := lstripL (rstripL s)

/-- Python `s.split('\n')`. -/
def splitNl : Text → List Text
  | [] => [[]]
  | c :: t =>
    if c = '\n' then [] :: splitNl t
    else
      match splitNl t with
      | [] => [[c]]
      | h :: r => (c :: h) :: r

/-- Python `'\n'.join(lines)`. -/
def joinNl (lines : List Text) : Text := List.intercalate ['\n'] lines

/-- Decimal digits of a natural number, with fuel (fuel `n+1` suffices). -/
def natToCharsGo : Nat → Nat → Text
  | 0, _ => []
  | f + 1, n =>
    if n < 10 then [Char.ofNat (48 + n)]
    else natToCharsGo f (n / 10) ++ [Char.ofNat (48 + n % 10)]

/-- Decimal rendering of a natural number (Python `str(n)` for `n ≥ 0`). -/
def natToChars (n : Nat) : Text := natToCharsGo (n + 1) n

/-- Decimal rendering of an integer (Python `str(n)`). -/
def intToChars (n : Int) : Text :=
  if n < 0 then '-' :: natToChars n.natAbs else natToChars n.natAbs

/-- Parse a run of decimal digits as a natural number. -/
def digitsToNat (ds : Text) : Nat :=
  ds.foldl (fun acc c => acc * 10 + (c.toNat - 48)) 0

/-!
The scanner layer: `_compute_string_ranges` and `_index_in_ranges` of the
source.  The source stores a range as the pair of the indices of the two
quote characters and tests membership with `a <= idx <= b`, so the pairs
are closed intervals over code-point positions.
-/

/-- Main loop of `_compute_string_ranges`: one pass with `in_string` and
`escape_next`, opening a range at an unescaped quote and closing it at the
next unescaped quote; at end of text an open string yields a final range
ending at `len(s) - 1`. -/
def csrGo (len : Nat) : Text → Nat → Bool → Bool → Nat → List (Nat × Nat) →
    List (Nat × Nat)
  | [], _, in_string, _, start, acc =>
    if in_string then acc ++ [(start, len - 1)] else acc
  | c :: rest, i, in_string, escape_next, start, acc =>
    if escape_next then csrGo len rest (i + 1) in_string false start acc
    else if c = '\\' then csrGo len rest (i + 1) in_string true start acc
    else if c = '"' then
      if in_string then csrGo len rest (i + 1) false false 0 (acc ++ [(start, i)])
      else csrGo len rest (i + 1) true false i acc
    else csrGo len rest (i + 1) in_string escape_next start acc

/-- `_compute_string_ranges` of the source. -/
def _compute_string_ranges (s : Text) : List (Nat × Nat) :=
  csrGo s.length s 0 false false 0 []

/-- `_index_in_ranges` of the source: membership in some closed pair. -/
def _index_in_ranges (idx : Nat) (ranges : List (Nat × Nat)) : Bool :=
  ranges.any fun p => decide (p.1 ≤ idx) && decide (idx ≤ p.2)

/-- Index of the first unescaped quote in the remaining text (a backslash
consumes exactly the next character), `len - 1` when there is none. -/
def strCloseGo (len : Nat) : Text → Nat → Bool → Nat
  | [], _, _ => len - 1
  | _ :: rest, i, true => strCloseGo len rest (i + 1) false
  | c :: rest, i, false =>
    if c = '\\' then strCloseGo len rest (i + 1) true
    else if c = '"' then i
    else strCloseGo len rest (i + 1) false

/-- The closing position of a string literal opening at `a`: the first
unescaped quote after `a`, or `len - 1` for an unterminated literal. -/
def strClose (s : Text) (a : Nat) : Nat :=
  strCloseGo s.length (s.drop (a + 1)) (a + 1) false

/-!
The substitution engine: a match is `(start, end, replacement)` with the
end exclusive, and a matcher returns the non-overlapping left-to-right
matches of one regular expression with the replacement already expanded.
`_sub_outside_strings` keeps only matches whose start lies outside every
string range and splices the replacements in, as the source does.
-/

/-- One regex match: start index, end index (exclusive), replacement text. -/
abbrev RMatch := Nat × Nat × Text

/-- Rebuild a text from the segment starting at `last`, splicing in each
match's replacement (the matches are ascending and non-overlapping). -/
def subFrom (s : Text) : Nat → List RMatch → Text
  | last, [] => s.drop last
  | last, (a, b, r) :: ms => ((s.drop last).take (a - last)) ++ r ++ subFrom s b ms

/-- `_sub_outside_strings` of the source, applied to a precomputed match
list: matches whose start index falls inside a string range are skipped. -/
def _sub_outside_strings (s : Text) (ms : List RMatch) : Text :=
  subFrom s 0 (ms.filter fun m => !_index_in_ranges m.1 (_compute_string_ranges s))

/-!
Matcher for `RE_TRAILING_COMMA = r",\s*([}\]])"` with replacement `\1`.
-/

/-- Scan for matches of `,\s*([}\]])`; on a match the scan resumes after
the matched closing bracket (finditer yields non-overlapping matches). -/
def ftcGo (s : Text) : Nat → Nat → List RMatch
  | 0, _ => []
  | f + 1, i =>
    match at? s i with
    | none => []
    | some c =>
      if c = ',' then
        let j := skipFrom reWs s (i + 1)
        match at? s j with
        | some d =>
          if d = '}' || d = ']' then (i, j + 1, [d]) :: ftcGo s f (j + 1)
          else ftcGo s f (i + 1)
        | none => ftcGo s f (i + 1)
      else ftcGo s f (i + 1)

/-- All matches of `RE_TRAILING_COMMA` in `s`. -/
def findTrailingComma (s : Text) : List RMatch := ftcGo s (s.length + 1) 0

/-- One substitution round of `remove_trailing_commas`. -/
def subTrailing (s : Text) : Text :=
  _sub_outside_strings s (findTrailingComma s)

/-- The `while prev != s` loop of `remove_trailing_commas`, with fuel; each
changing round strictly shrinks the text, so fuel `len + 1` reaches the
fix-point. -/
def rtcGo : Nat → Text → Text
  | 0, s => s
  | f + 1, s =>
    let t := subTrailing s
    if t = s then s else rtcGo f t

/-- `remove_trailing_commas` of the source. -/
def remove_trailing_commas (s : Text) : Text := rtcGo (s.length + 1) s

/-!
Matchers for the remaining regular expressions of the source, each as a
left-to-right scan producing non-overlapping matches with the replacement
already expanded (the patterns are deterministic: their branches have
disjoint first characters, so backtracking never yields another match).
-/

/-- Find the closing `*/` of a block comment from index `i` on. -/
def findBcClose (s : Text) : Nat → Nat → Option Nat
  | 0, _ => none
  | f + 1, i =>
    match at? s i with
    | none => none
    | some c =>
      if c = '*' && at? s (i + 1) = some '/' then some i
      else findBcClose s f (i + 1)

/-- Matches of `RE_BLOCK_COMMENT = r"/\*.*?\*/"` (dotall, non-greedy),
replaced by the empty text. -/
def fbcGo (s : Text) : Nat → Nat → List RMatch
  | 0, _ => []
  | f + 1, i =>
    match at? s i with
    | none => []
    | some c =>
      if c = '/' && at? s (i + 1) = some '*' then
        match findBcClose s (s.length + 1) (i + 2) with
        | some j => (i, j + 2, []) :: fbcGo s f (j + 2)
        | none => fbcGo s f (i + 1)
      else fbcGo s f (i + 1)

def findBlockComment (s : Text) : List RMatch := fbcGo s (s.length + 1) 0

/-- Matches of `RE_LINE_COMMENT = r"//.*?$"` (multiline): from `//` up to,
but not including, the end of the line; replaced by the empty text. -/
def flcGo (s : Text) : Nat → Nat → List RMatch
  | 0, _ => []
  | f + 1, i =>
    match at? s i with
    | none => []
    | some c =>
      if c = '/' && at? s (i + 1) = some '/' then
        let j := skipFrom (fun d => !(d == '\n')) s (i + 2)
        (i, j, []) :: flcGo s f (j + 1)
      else flcGo s f (i + 1)

def findLineComment (s : Text) : List RMatch := flcGo s (s.length + 1) 0

/-- Matches of `RE_UNQUOTED_KEY` with the replacement of
`quote_unquoted_keys`: the identifier is wrapped in quotes, groups 1 and 3
are kept verbatim. -/
def fuqGo (s : Text) : Nat → Nat → List RMatch
  | 0, _ => []
  | f + 1, i =>
    match at? s i with
    | none => []
    | some c =>
      if c = '{' || c = '[' || c = ',' || c = '\n' then
        let j := skipFrom reWs s (i + 1)
        match at? s j with
        | some d =>
          if d.isAlpha || d = '_' then
            let k := skipFrom wordChar s (j + 1)
            let m := skipFrom reWs s k
            if at? s m = some ':' then
              let repl := (s.drop i).take (j - i) ++ ['"'] ++ (s.drop j).take (k - j)
                ++ ['"'] ++ (s.drop k).take (m - k) ++ [':']
              (i, m + 1, repl) :: fuqGo s f (m + 1)
            else fuqGo s f (i + 1)
          else fuqGo s f (i + 1)
        | none => fuqGo s f (i + 1)
      else fuqGo s f (i + 1)

def findUnquotedKey (s : Text) : List RMatch := fuqGo s (s.length + 1) 0

/-- Matches of a word-bounded literal word (for `\bTrue\b` and friends),
replaced by `repl`. -/
def fwbGo (s : Text) (w repl : Text) : Nat → Nat → List RMatch
  | 0, _ => []
  | f + 1, i =>
    match at? s i with
    | none => []
    | some _ =>
      if sliceEq s i w
          && (i = 0 || !((at? s (i - 1)).any wordChar))
          && !((at? s (i + w.length)).any wordChar) then
        (i, i + w.length, repl) :: fwbGo s w repl f (i + w.length)
      else fwbGo s w repl f (i + 1)

def findWordBounded (s : Text) (w repl : Text) : List RMatch :=
  fwbGo s w repl (s.length + 1) 0

/-- Matches of `RE_MISSING_COMMA_OBJ = r"(\})\s*(\{)"`, replacement
`\1, \2`. -/
def fmcObjGo (s : Text) : Nat → Nat → List RMatch
  | 0, _ => []
  | f + 1, i =>
    match at? s i with
    | none => []
    | some c =>
      if c = '}' then
        let j := skipFrom reWs s (i + 1)
        if at? s j = some '{' then
          (i, j + 1, ['}', ',', ' ', '{']) :: fmcObjGo s f (j + 1)
        else fmcObjGo s f (i + 1)
      else fmcObjGo s f (i + 1)

def findMissingCommaObj (s : Text) : List RMatch := fmcObjGo s (s.length + 1) 0

/-- Matches of `RE_MISSING_COMMA_1 = r"(\}|\]|\")\s*(\{|\[|\")"`,
replacement `\1, \2`. -/
def fmc1Go (s : Text) : Nat → Nat → List RMatch
  | 0, _ => []
  | f + 1, i =>
    match at? s i with
    | none => []
    | some c =>
      if c = '}' || c = ']' || c = '"' then
        let j := skipFrom reWs s (i + 1)
        match at? s j with
        | some d =>
          if d = '{' || d = '[' || d = '"' then
            (i, j + 1, [c, ',', ' ', d]) :: fmc1Go s f (j + 1)
          else fmc1Go s f (i + 1)
        | none => fmc1Go s f (i + 1)
      else fmc1Go s f (i + 1)

def findMissingComma1 (s : Text) : List RMatch := fmc1Go s (s.length + 1) 0

/-- Whether the slice `s[a..b)` holds a newline character. -/
def hasNlBetween (s : Text) (a b : Nat) : Bool :=
  ((s.drop a).take (b - a)).any fun c => c == '\n'

/-- Matches of `r"(\}|\])\s*\n\s*(\{|\[)"`, replacement `\1,\n\2`: a closing
bracket, whitespace holding at least one newline, an opening bracket. -/
def fmcNlBrGo (s : Text) : Nat → Nat → List RMatch
  | 0, _ => []
  | f + 1, i =>
    match at? s i with
    | none => []
    | some c =>
      if c = '}' || c = ']' then
        let j := skipFrom reWs s (i + 1)
        match at? s j with
        | some d =>
          if (d = '{' || d = '[') && hasNlBetween s (i + 1) j then
            (i, j + 1, [c, ',', '\n', d]) :: fmcNlBrGo s f (j + 1)
          else fmcNlBrGo s f (i + 1)
        | none => fmcNlBrGo s f (i + 1)
      else fmcNlBrGo s f (i + 1)

def findMissingCommaNlBracket (s : Text) : List RMatch := fmcNlBrGo s (s.length + 1) 0

/-- Matches of `r'(\}|\])\s+(")'`, replacement `\1, \2` (at least one
whitespace character between the bracket and the quote). -/
def fmcBrQGo (s : Text) : Nat → Nat → List RMatch
  | 0, _ => []
  | f + 1, i =>
    match at? s i with
    | none => []
    | some c =>
      if c = '}' || c = ']' then
        let j := skipFrom reWs s (i + 1)
        if i + 1 < j && at? s j = some '"' then
          (i, j + 1, [c, ',', ' ', '"']) :: fmcBrQGo s f (j + 1)
        else fmcBrQGo s f (i + 1)
      else fmcBrQGo s f (i + 1)

def findMissingCommaBracketQuote (s : Text) : List RMatch := fmcBrQGo s (s.length + 1) 0

/-- First group of `(\d+|"[^"]*")` at index `i`: the end of the token, if
the alternation matches. -/
def numOrStrTokenEnd (s : Text) (i : Nat) : Option Nat :=
  match at? s i with
  | none => none
  | some c =>
    if c.isDigit then some (skipFrom Char.isDigit s i)
    else if c = '"' then
      let j := skipFrom (fun d => !(d == '"')) s (i + 1)
      if at? s j = some '"' then some (j + 1) else none
    else none

/-- Second group `("[\w]+"\s*:)` starting at index `w`: its end (one past
the colon), if it matches. -/
def keyGroupEnd (s : Text) (w : Nat) : Option Nat :=
  if at? s w = some '"' then
    let k := skipFrom wordChar s (w + 1)
    if w + 1 < k && at? s k = some '"' then
      let m := skipFrom reWs s (k + 1)
      if at? s m = some ':' then some (m + 1) else none
    else none
  else none

/-- Matches of `r'(\d+|"[^"]*")\s+("[\w]+"\s*:)'`, replacement `\1, \2`. -/
def fmcNumKeyGo (s : Text) : Nat → Nat → List RMatch
  | 0, _ => []
  | f + 1, i =>
    match at? s i with
    | none => []
    | some _ =>
      match numOrStrTokenEnd s i with
      | some g1e =>
        let w := skipFrom reWs s g1e
        if g1e < w then
          match keyGroupEnd s w with
          | some g2e =>
            let repl := (s.drop i).take (g1e - i) ++ [',', ' '] ++ (s.drop w).take (g2e - w)
            (i, g2e, repl) :: fmcNumKeyGo s f g2e
          | none => fmcNumKeyGo s f (i + 1)
        else fmcNumKeyGo s f (i + 1)
      | none => fmcNumKeyGo s f (i + 1)

def findMissingCommaNumKey (s : Text) : List RMatch := fmcNumKeyGo s (s.length + 1) 0

/-- First group of `(\d+|"[^"]*"|true|false|null)` at index `i`. -/
def valTokenEnd (s : Text) (i : Nat) : Option Nat :=
  match numOrStrTokenEnd s i with
  | some e => some e
  | none =>
    if sliceEq s i ("true").data then some (i + 4)
    else if sliceEq s i ("false").data then some (i + 5)
    else if sliceEq s i ("null").data then some (i + 4)
    else none

/-- Matches of `r'(\d+|"[^"]*"|true|false|null)\s*\n\s*("[\w]+"\s*:)'`,
replacement `\1,\n\2`. -/
def fmcValNlKeyGo (s : Text) : Nat → Nat → List RMatch
  | 0, _ => []
  | f + 1, i =>
    match at? s i with
    | none => []
    | some _ =>
      match valTokenEnd s i with
      | some g1e =>
        let w := skipFrom reWs s g1e
        if hasNlBetween s g1e w then
          match keyGroupEnd s w with
          | some g2e =>
            let repl := (s.drop i).take (g1e - i) ++ [',', '\n'] ++ (s.drop w).take (g2e - w)
            (i, g2e, repl) :: fmcValNlKeyGo s f g2e
          | none => fmcValNlKeyGo s f (i + 1)
        else fmcValNlKeyGo s f (i + 1)
      | none => fmcValNlKeyGo s f (i + 1)

def findMissingCommaValNlKey (s : Text) : List RMatch := fmcValNlKeyGo s (s.length + 1) 0

/-- Matches of `r'(\}|\])\s*\n\s*("[\w]+"\s*:)'`, replacement `\1,\n\2`. -/
def fmcBrNlKeyGo (s : Text) : Nat → Nat → List RMatch
  | 0, _ => []
  | f + 1, i =>
    match at? s i with
    | none => []
    | some c =>
      if c = '}' || c = ']' then
        let w := skipFrom reWs s (i + 1)
        if hasNlBetween s (i + 1) w then
          match keyGroupEnd s w with
          | some g2e =>
            let repl := [c, ',', '\n'] ++ (s.drop w).take (g2e - w)
            (i, g2e, repl) :: fmcBrNlKeyGo s f g2e
          | none => fmcBrNlKeyGo s f (i + 1)
        else fmcBrNlKeyGo s f (i + 1)
      else fmcBrNlKeyGo s f (i + 1)

def findMissingCommaBrNlKey (s : Text) : List RMatch := fmcBrNlKeyGo s (s.length + 1) 0

/-- Matches of `r'"(\w+)":\s*,'`, replacement `"\1": null,`
(`fix_missing_values`). -/
def fmvGo (s : Text) : Nat → Nat → List RMatch
  | 0, _ => []
  | f + 1, i =>
    match at? s i with
    | none => []
    | some c =>
      if c = '"' then
        let j := skipFrom wordChar s (i + 1)
        if i + 1 < j && at? s j = some '"' && at? s (j + 1) = some ':' then
          let k := skipFrom reWs s (j + 2)
          if at? s k = some ',' then
            let repl := (s.drop i).take (j + 1 - i) ++ (": null,").data
            (i, k + 1, repl) :: fmvGo s f (k + 1)
          else fmvGo s f (i + 1)
        else fmvGo s f (i + 1)
      else fmvGo s f (i + 1)

def findMissingValue (s : Text) : List RMatch := fmvGo s (s.length + 1) 0

/-- Matches of `RE_REMOVE_QUOTE_AFTER_CONTAINER =
r'([}\]])\s*"\s*(?=,|\}|\]|$)'`, replacement `\1`; the lookahead is not
consumed, so the match ends after the trailing whitespace run. -/
def frqGo (s : Text) : Nat → Nat → List RMatch
  | 0, _ => []
  | f + 1, i =>
    match at? s i with
    | none => []
    | some c =>
      if c = '}' || c = ']' then
        let j := skipFrom reWs s (i + 1)
        if at? s j = some '"' then
          let k := skipFrom reWs s (j + 1)
          if k = s.length || at? s k = some ',' || at? s k = some '}'
              || at? s k = some ']' then
            (i, k, [c]) :: frqGo s f k
          else frqGo s f (i + 1)
        else frqGo s f (i + 1)
      else frqGo s f (i + 1)

def findRemoveQuoteAfterContainer (s : Text) : List RMatch := frqGo s (s.length + 1) 0

/-- Closing quote of a regex string token `"([^"\\]|\\.)*"` whose opening
quote is at `i - 1`: scan forward, a backslash consuming the next character
unless it is a newline (`.` without dotall). -/
def strTokenClose (s : Text) : Nat → Nat → Option Nat
  | 0, _ => none
  | f + 1, j =>
    match at? s j with
    | none => none
    | some c =>
      if c = '"' then some j
      else if c = '\\' then
        match at? s (j + 1) with
        | some d => if d = '\n' then none else strTokenClose s f (j + 2)
        | none => none
      else strTokenClose s f (j + 1)

/-- Matches of `r'"([^"\\]|\\.)*"'`, replacement `""` (used by the counting
fallback of `balance_brackets`). -/
def fssGo (s : Text) : Nat → Nat → List RMatch
  | 0, _ => []
  | f + 1, i =>
    match at? s i with
    | none => []
    | some c =>
      if c = '"' then
        match strTokenClose s (s.length + 1) (i + 1) with
        | some j => (i, j + 1, ['"', '"']) :: fssGo s f (j + 1)
        | none => fssGo s f (i + 1)
      else fssGo s f (i + 1)

def findStringToken (s : Text) : List RMatch := fssGo s (s.length + 1) 0

/-- The `_strip_strings` helper of the fallback branch of
`balance_brackets`: plain `re.sub` of every string token by `""`. -/
def regexStripStrings (s : Text) : Text := subFrom s 0 (findStringToken s)

/-!
Simple text transforms of the source that need no JSON parser.
-/

/-- `strip_comments`: block comments, then line comments, both only outside
string literals. -/
def strip_comments (s : Text) : Text :=
  let s2 := _sub_outside_strings s (findBlockComment s)
  _sub_outside_strings s2 (findLineComment s2)

/-- `normalize_literals`: word-bounded `True`, `False`, `NULL` lowered,
only outside string literals. -/
def normalize_literals (s : Text) : Text :=
  let s1 := _sub_outside_strings s (findWordBounded s ("True").data ("true").data)
  let s2 := _sub_outside_strings s1 (findWordBounded s1 ("False").data ("false").data)
  _sub_outside_strings s2 (findWordBounded s2 ("NULL").data ("null").data)

/-- The bounded fix-point loop of `quote_unquoted_keys` (10 iterations). -/
def qukGo : Nat → Text → Text
  | 0, s => s
  | f + 1, s =>
    let t := _sub_outside_strings s (findUnquotedKey s)
    if t = s then s else qukGo f t

/-- `quote_unquoted_keys` of the source. -/
def quote_unquoted_keys (s : Text) : Text := qukGo 10 s

/-- `escape_special_characters`: the source's simplified version returns
its input unchanged. -/
def escape_special_characters (s : Text) : Text := s

/-- One round of `insert_missing_commas`: the seven substitutions in
source order. -/
def imcStep (s : Text) : Text :=
  let s1 := _sub_outside_strings s (findMissingCommaObj s)
  let s2 := _sub_outside_strings s1 (findMissingComma1 s1)
  let s3 := _sub_outside_strings s2 (findMissingCommaNlBracket s2)
  let s4 := _sub_outside_strings s3 (findMissingCommaBracketQuote s3)
  let s5 := _sub_outside_strings s4 (findMissingCommaNumKey s4)
  let s6 := _sub_outside_strings s5 (findMissingCommaValNlKey s5)
  _sub_outside_strings s6 (findMissingCommaBrNlKey s6)

/-- The bounded fix-point loop of `insert_missing_commas`. -/
def imcGo : Nat → Text → Text
  | 0, s => s
  | f + 1, s =>
    let t := imcStep s
    if t = s then t else imcGo f t

/-- `insert_missing_commas` of the source (10 iterations). -/
def insert_missing_commas (s : Text) : Text := imcGo 10 s

/-- `fix_missing_values` of the source. -/
def fix_missing_values (s : Text) : Text :=
  _sub_outside_strings s (findMissingValue s)

/-!
The strict JSON parser and the serializers (`json.loads`, `json.dumps`) of
the Python standard library, used by `remove_duplicate_keys`,
`clean_extra_brackets` and `try_parse_json`.  They are embedded in a
faithful fragment following CPython `Lib/json`: the number grammar is
restricted to its integer part (no float repr), there are no
`NaN`/`Infinity` constants, and a lone-surrogate `\uXXXX` escape is
rejected instead of producing a lone surrogate (Lean characters are
scalar values).  Error messages are rendered as CPython does:
`msg: line L column C (char P)`, which is exactly what the error-guided
transforms of the source probe; the two `{0!r}` reprs of CPython's
invalid-escape and control-character messages are omitted.
-/

/-- A parsed JSON value.  Objects keep Python dict semantics: first-
occurrence order with last-wins values (see `dictInsert`). -/
inductive Jv where
  | null
  | bool (b : Bool)
  | num (n : Int)
  | str (s : Text)
  | arr (items : List Jv)
  | obj (pairs : List (Text × Jv))

/-- A parse error before rendering: message template and character offset. -/
abbrev PErr := Text × Nat

/-- JSON whitespace (the `WHITESPACE` class of `json.decoder`). -/
def jsonWsChar (c : Char) : Bool :=
  c = ' ' || c = '\t' || c = '\n' || c = '\r'

/-- Number of newline characters in a text. -/
def countNl (t : Text) : Nat := (t.filter fun c => c == '\n').length

/-- Index of the last newline strictly before `pos` (Python
`doc.rfind('\n', 0, pos)`). -/
def rfindNl (pre : Text) : Option Nat :=
  ((List.range pre.length).filter fun k => at? pre k = some '\n').getLast?

/-- Render a `JSONDecodeError` as `str(e)` does:
`msg: line L column C (char P)`. -/
def fmtErr (s : Text) (tmpl : Text) (pos : Nat) : Text :=
  let pre := s.take pos
  let lineno := countNl pre + 1
  let colno := match rfindNl pre with
    | some k => pos - k
    | none => pos + 1
  tmpl ++ (": line ").data ++ natToChars lineno ++ (" column ").data
    ++ natToChars colno ++ (" (char ").data ++ natToChars pos ++ (")").data

/-- The `BACKSLASH` escape table of `json.decoder`. -/
def backslashChar (c : Char) : Option Char :=
  if c = '"' then some '"'
  else if c = '\\' then some '\\'
  else if c = '/' then some '/'
  else if c = 'b' then some '\x08'
  else if c = 'f' then some '\x0c'
  else if c = 'n' then some '\n'
  else if c = 'r' then some '\r'
  else if c = 't' then some '\t'
  else none

/-- Hexadecimal digit value. -/
def hexVal (c : Char) : Option Nat :=
  if c.isDigit then some (c.toNat - 48)
  else if 'a' ≤ c && c ≤ 'f' then some (c.toNat - 87)
  else if 'A' ≤ c && c ≤ 'F' then some (c.toNat - 55)
  else none

/-- Four hex digits at `i` (the `_decode_uXXXX` slice). -/
def hex4At (s : Text) (i : Nat) : Option Nat :=
  match at? s i, at? s (i + 1), at? s (i + 2), at? s (i + 3) with
  | some a, some b, some c, some d =>
    match hexVal a, hexVal b, hexVal c, hexVal d with
    | some va, some vb, some vc, some vd =>
      some (va * 4096 + vb * 256 + vc * 16 + vd)
    | _, _, _, _ => none
  | _, _, _, _ => none

/-- `py_scanstring`: scan a string literal whose opening quote stands at
`beginq`, starting at index `e`; returns the decoded content and the index
one past the closing quote. -/
def scanStringGo (s : Text) (beginq : Nat) : Nat → Nat → Text → Except PErr (Text × Nat)
  | 0, _, _ => .error (("Unterminated string starting at").data, beginq)
  | f + 1, e, acc =>
    let cnt := skipCount (fun c => !(c == '"') && !(c == '\\') && !(c.toNat < 32)) (s.drop e)
    let te := e + cnt
    match at? s te with
    | none => .error (("Unterminated string starting at").data, beginq)
    | some t =>
      let acc2 := acc ++ (s.drop e).take cnt
      let e2 := te + 1
      if t = '"' then .ok (acc2, e2)
      else if !(t = '\\') then .error (("Invalid control character at").data, e2)
      else
        match at? s e2 with
        | none => .error (("Unterminated string starting at").data, beginq)
        | some esc =>
          if !(esc = 'u') then
            match backslashChar esc with
            | some ch => scanStringGo s beginq f (e2 + 1) (acc2 ++ [ch])
            | none => .error (("Invalid \\escape").data, e2)
          else
            match hex4At s (e2 + 1) with
            | none => .error (("Invalid \\uXXXX escape").data, e2)
            | some uni =>
              let e3 := e2 + 5
              if 0xd800 ≤ uni && uni ≤ 0xdbff then
                if sliceEq s e3 ("\\u").data then
                  match hex4At s (e3 + 2) with
                  | none => .error (("Invalid \\uXXXX escape").data, e3 + 1)
                  | some uni2 =>
                    if 0xdc00 ≤ uni2 && uni2 ≤ 0xdfff then
                      let u := 0x10000 + ((uni - 0xd800) * 1024 + (uni2 - 0xdc00))
                      scanStringGo s beginq f (e3 + 6) (acc2 ++ [Char.ofNat u])
                    else .error (("Lone surrogate escape not modelled").data, e2)
                else .error (("Lone surrogate escape not modelled").data, e2)
              else scanStringGo s beginq f e3 (acc2 ++ [Char.ofNat uni])

/-- The integer part of `NUMBER_RE`: `-?(0|[1-9][0-9]*)` (the modelled
number fragment). -/
def matchIntAt (s : Text) (i : Nat) : Option (Int × Nat) :=
  let neg := at? s i = some '-'
  let j := if neg then i + 1 else i
  match at? s j with
  | none => none
  | some c =>
    if c = '0' then some (0, j + 1)
    else if c.isDigit then
      let k := skipFrom Char.isDigit s j
      let v : Int := Int.ofNat (digitsToNat ((s.drop j).take (k - j)))
      some (if neg then -v else v, k)
    else none

/-- Python dict assignment `d[k] = v`: last value wins, the key keeps its
first-occurrence position. -/
def dictInsert (ps : List (Text × Jv)) (k : Text) (v : Jv) : List (Text × Jv) :=
  if ps.any fun p => p.1 = k then
    ps.map fun p => if p.1 = k then (k, v) else p
  else ps ++ [(k, v)]

/-- `dict(pairs)` over the accumulated key-value list. -/
def dictOf (ps : List (Text × Jv)) : List (Text × Jv) :=
  ps.foldl (fun acc p => dictInsert acc p.1 p.2) []

/-- Python `s[end]` with the surrounding whitespace fast path of
`json.decoder`: character at `e` after skipping whitespace, together with
the index it was read at. -/
def wsNext (s : Text) (e : Nat) : Nat × Option Char :=
  match at? s e with
  | none => (e, none)
  | some ch =>
    if jsonWsChar ch then
      let q := skipFrom jsonWsChar s (e + 1)
      (q, at? s q)
    else (e, some ch)

/-- Dispatch state of the recursive-descent scanner: a value start
(`_scan_once`), an object just past its `{`, the member loop past an
opening key quote, an array just past its `[`, and the element loop. -/
inductive PMode where
  | val
  | objStart
  | objLoop (pairs : List (Text × Jv))
  | arrStart
  | arrLoop (values : List Jv)

/-- The recursive-descent scanner of `json.scanner` / `json.decoder`
(`_scan_once`, `JSONObject`, `JSONArray`) as one function, structurally
recursive on a fuel that is spent once per consumed character or nesting
step, so `2·len + 8` at top level never runs out on the way to a
verdict. -/
def pscan (s : Text) : Nat → PMode → Nat → Except PErr (Jv × Nat)
  | 0, _, e => .error (("Expecting value").data, e)
  | f + 1, .val, idx =>
    match at? s idx with
    | none => .error (("Expecting value").data, idx)
    | some c =>
      if c = '"' then
        match scanStringGo s idx (s.length + 2) (idx + 1) [] with
        | .ok (st, e) => .ok (.str st, e)
        | .error pe => .error pe
      else if c = '{' then pscan s f .objStart (idx + 1)
      else if c = '[' then pscan s f .arrStart (idx + 1)
      else if sliceEq s idx ("null").data then .ok (.null, idx + 4)
      else if sliceEq s idx ("true").data then .ok (.bool true, idx + 4)
      else if sliceEq s idx ("false").data then .ok (.bool false, idx + 5)
      else
        match matchIntAt s idx with
        | some (n, e) => .ok (.num n, e)
        | none => .error (("Expecting value").data, idx)
  | f + 1, .objStart, end0 =>
    (match at? s end0 with
    | some '"' => pscan s f (.objLoop []) (end0 + 1)
    | c0 =>
      let e1 := if c0.any jsonWsChar then skipFrom jsonWsChar s end0 else end0
      match at? s e1 with
      | some '}' => .ok (.obj [], e1 + 1)
      | some '"' => pscan s f (.objLoop []) (e1 + 1)
      | _ => .error (("Expecting property name enclosed in double quotes").data, e1))
  | f + 1, .objLoop pairs, end0 =>
    (match scanStringGo s (end0 - 1) (s.length + 2) end0 [] with
    | .error pe => .error pe
    | .ok (key, e1) =>
      let e2 := if at? s e1 = some ':' then e1 else skipFrom jsonWsChar s e1
      if !(at? s e2 = some ':') then
        .error (("Expecting ':' delimiter").data, e2)
      else
        let e3 := skipFrom jsonWsChar s (e2 + 1)
        match pscan s f .val e3 with
        | .error pe => .error pe
        | .ok (value, e4) =>
          let pairs2 := pairs ++ [(key, value)]
          let (e5, c5) := wsNext s e4
          let e6 := e5 + 1
          if c5 = some '}' then .ok (.obj (dictOf pairs2), e6)
          else if !(c5 = some ',') then
            .error (("Expecting ',' delimiter").data, e6 - 1)
          else
            let (e7, c7) := wsNext s e6
            let e8 := e7 + 1
            if !(c7 = some '"') then
              .error (("Expecting property name enclosed in double quotes").data, e8 - 1)
            else pscan s f (.objLoop pairs2) e8)
  | f + 1, .arrStart, end0 =>
    let (e1, c1) := wsNext s end0
    if c1 = some ']' then .ok (.arr [], e1 + 1)
    else pscan s f (.arrLoop []) e1
  | f + 1, .arrLoop values, end0 =>
    (match pscan s f .val end0 with
    | .error pe => .error pe
    | .ok (v, e1) =>
      let values2 := values ++ [v]
      let (e2, c2) := wsNext s e1
      let e3 := e2 + 1
      if c2 = some ']' then .ok (.arr values2, e3)
      else if !(c2 = some ',') then
        .error (("Expecting ',' delimiter").data, e3 - 1)
      else
        let e4 := skipFrom jsonWsChar s e3
        pscan s f (.arrLoop values2) e4)

/-- `_scan_once` of `json.scanner`. -/
def scanOnce (s : Text) (fuel idx : Nat) : Except PErr (Jv × Nat) :=
  pscan s fuel .val idx

/-- `json.loads`: skip leading whitespace, scan one value, require only
whitespace to follow (`Extra data` otherwise); errors are rendered. -/
def loads (s : Text) : Except Text Jv :=
  let idx := skipFrom jsonWsChar s 0
  match scanOnce s (2 * s.length + 8) idx with
  | .error (t, pos) => .error (fmtErr s t pos)
  | .ok (v, e) =>
    let e2 := skipFrom jsonWsChar s e
    if e2 = s.length then .ok v
    else .error (fmtErr s ("Extra data").data e2)

/-- Lowercase hex digit. -/
def hexDigit (n : Nat) : Char :=
  if n < 10 then Char.ofNat (48 + n) else Char.ofNat (87 + n)

/-- `json.dumps` string escaping with `ensure_ascii=False`: backslash,
quote and control characters only; controls use the short escapes or
`\u00xx`. -/
def escC (c : Char) : Text :=
  if c = '\\' then ['\\', '\\']
  else if c = '"' then ['\\', '"']
  else if c = '\n' then ['\\', 'n']
  else if c = '\r' then ['\\', 'r']
  else if c = '\t' then ['\\', 't']
  else if c = '\x08' then ['\\', 'b']
  else if c = '\x0c' then ['\\', 'f']
  else if c.toNat < 32 then
    ['\\', 'u', '0', '0', hexDigit (c.toNat / 16), hexDigit (c.toNat % 16)]
  else [c]

/-- Serialize a string value. -/
def dumpStr (t : Text) : Text :=
  ['"'] ++ t.foldr (fun c acc => escC c ++ acc) [] ++ ['"']

/-- Join with a separator. -/
def joinSep (sep : Text) (items : List Text) : Text := List.intercalate sep items

/-- `json.dumps(obj, ensure_ascii=False)`: compact form with the default
separators `", "` and `": "`.  The fuel is spent once per nesting level;
values obtained by parsing a text of length `n` have depth below `n + 2`. -/
def dumpsCF : Nat → Jv → Text
  | 0, _ => []
  | _ + 1, .null => ("null").data
  | _ + 1, .bool b => if b then ("true").data else ("false").data
  | _ + 1, .num n => intToChars n
  | _ + 1, .str t => dumpStr t
  | f + 1, .arr xs =>
    if xs.isEmpty then ['[', ']']
    else ['['] ++ joinSep (", ").data (xs.map (dumpsCF f)) ++ [']']
  | f + 1, .obj ps =>
    if ps.isEmpty then ['{', '}']
    else
      ['{'] ++ joinSep (", ").data
        (ps.map fun p => dumpStr p.1 ++ (": ").data ++ dumpsCF f p.2) ++ ['}']

/-- `'  ' * l`. -/
def indentN (l : Nat) : Text := List.replicate (2 * l) ' '

/-- `json.dumps(obj, ensure_ascii=False, indent=2)`: each container item on
its own line, item separator `','` plus the newline indent, key separator
`": "`, empty containers rendered inline. -/
def dumpsIF : Nat → Nat → Jv → Text
  | 0, _, _ => []
  | _ + 1, _, .null => ("null").data
  | _ + 1, _, .bool b => if b then ("true").data else ("false").data
  | _ + 1, _, .num n => intToChars n
  | _ + 1, _, .str t => dumpStr t
  | f + 1, lvl, .arr xs =>
    if xs.isEmpty then ['[', ']']
    else
      ['[', '\n'] ++
        joinSep ([','] ++ ['\n']) (xs.map fun x => indentN (lvl + 1) ++ dumpsIF f (lvl + 1) x)
        ++ ['\n'] ++ indentN lvl ++ [']']
  | f + 1, lvl, .obj ps =>
    if ps.isEmpty then ['{', '}']
    else
      ['{', '\n'] ++
        joinSep ([','] ++ ['\n'])
          (ps.map fun p =>
            indentN (lvl + 1) ++ dumpStr p.1 ++ (": ").data ++ dumpsIF f (lvl + 1) p.2)
        ++ ['\n'] ++ indentN lvl ++ ['}']

/-- `try_parse_json` of the source: `(True, pretty)` on success,
`(False, str(error))` on failure. -/
def try_parse_json (s : Text) : Bool × Text :=
  match loads s with
  | .ok v => (true, dumpsIF (s.length + 2) 0 v)
  | .error e => (false, e)

/-- `remove_duplicate_keys` of the source: re-serialize compactly when the
text parses, return it unchanged otherwise (the bare `except`). -/
def remove_duplicate_keys (s : Text) : Text :=
  match loads s with
  | .ok v => dumpsCF (s.length + 2) v
  | .error _ => s

/-!
The remaining transforms of the source.
-/

/-- Python `str.replace(old, new)`: all non-overlapping occurrences, left
to right (identity when `old` is empty, a case the source never reaches). -/
def replaceAllGo (old new : Text) : Nat → Text → Text
  | 0, t => t
  | f + 1, t =>
    match t with
    | [] => []
    | c :: rest =>
      if old ≠ [] && sliceEq t 0 old then new ++ replaceAllGo old new f (t.drop old.length)
      else c :: replaceAllGo old new f rest

def replaceAll (s old new : Text) : Text := replaceAllGo old new (s.length + 1) s

/-- The `Pass 0` line-ending normalization of `repair_jsonish`:
`s.replace("\r\n", "\n").replace("\r", "\n")`. -/
def normalize_line_endings (s : Text) : Text :=
  replaceAll (replaceAll s ("\r\n").data ("\n").data) ("\r").data ("\n").data

/-- The `RE_BARE_KV_SNIPPET = r'^\s*"\s*[^"]+\s*"\s*:\s*'` test on the
lstripped text: an opening quote, at least one non-quote character, the
closing quote, optional whitespace, a colon. -/
def bareKvMatch (t : Text) : Bool :=
  match at? t 0 with
  | some '"' =>
    let q := 1 + skipCount (fun c => !(c == '"')) (t.drop 1)
    if 2 ≤ q && at? t q = some '"' then
      at? t (skipFrom reWs t (q + 1)) = some ':'
    else false
  | _ => false

/-- `wrap_bare_kv_snippet` of the source. -/
def wrap_bare_kv_snippet (s : Text) : Text × List Text :=
  let t := lstripL s
  match at? t 0 with
  | none => (s, [])
  | some c0 =>
    if !(c0 = '{') && !(c0 = '[') && bareKvMatch t then
      (['{', '\n'] ++ s ++ ['\n', '}'],
       [("wrapped bare key/value snippet with surrounding '\x7b \x7d'").data])
    else (s, [])

/-- Matches of `r'"([^"]+)"\s*:\s*"'` for
`promote_stringified_json_values`: `(key, position of the value's opening
quote, match end)`. -/
def fkvqGo (s : Text) : Nat → Nat → List (Text × Nat × Nat)
  | 0, _ => []
  | f + 1, i =>
    match at? s i with
    | none => []
    | some c =>
      if c = '"' then
        let j := i + 1 + skipCount (fun d => !(d == '"')) (s.drop (i + 1))
        if i + 1 < j && at? s j = some '"' then
          let m := skipFrom reWs s (j + 1)
          if at? s m = some ':' then
            let n := skipFrom reWs s (m + 1)
            if at? s n = some '"' then
              ((s.drop (i + 1)).take (j - (i + 1)), n, n + 1) :: fkvqGo s f (n + 1)
            else fkvqGo s f (i + 1)
          else fkvqGo s f (i + 1)
        else fkvqGo s f (i + 1)
      else fkvqGo s f (i + 1)

def findKeyValQuote (s : Text) : List (Text × Nat × Nat) := fkvqGo s (s.length + 1) 0

/-- The acceptance test of `promote_stringified_json_values` for a match
whose value-opening quote stands at `oq`: the next character is `{` or
`[`, and after skipping the explicit set `" \t\r\n"` an unescaped quote
follows. -/
def promoteAccept (s : Text) (oq : Nat) : Bool :=
  let brace := oq + 1
  match at? s brace with
  | some b =>
    if b = '{' || b = '[' then
      at? s (skipFrom setWs s (brace + 1)) = some '"'
    else false
  | _ => false

/-- Assemble the promoted text: for each accepted match drop the value's
opening quote (segments are concatenated with a running `last` pointer). -/
def promBuild (s : Text) : Nat → List Nat → Text
  | last, [] => s.drop last
  | last, oq :: rest => ((s.drop last).take (oq - last)) ++ promBuild s (oq + 1) rest

/-- `promote_stringified_json_values` of the source. -/
def promote_stringified_json_values (s : Text) : Text × List Text :=
  let accepted := (findKeyValQuote s).filter fun m => promoteAccept s m.2.1
  if accepted.isEmpty then (s, [])
  else
    let s2 := promBuild s 0 (accepted.map fun m => m.2.1)
    let diags := accepted.map fun m =>
      ("promoted stringified JSON value for key '").data ++ m.1
        ++ ("' to real container").data
    (_sub_outside_strings s2 (findRemoveQuoteAfterContainer s2), diags)

/-- Characters of a numeric token for
`remove_stray_quote_after_number_token`. -/
def numChar (c : Char) : Bool :=
  c.isDigit || c = '.' || c = '+' || c = '-' || c = 'e' || c = 'E'

/-- Last index below `i` whose character is outside the explicit set
`" \t\r\n"` (the backward scans of the stray-quote transform). -/
def prevNonSetWs (cs : Text) : Nat → Option Nat
  | 0 => none
  | k + 1 =>
    match at? cs k with
    | some c => if setWs c then prevNonSetWs cs k else some k
    | none => prevNonSetWs cs k

/-- Start of the numeric token that ends at `k` (inclusive). -/
def numTokStart (cs : Text) : Nat → Nat
  | 0 => 0
  | k + 1 => if (at? cs k).any numChar then numTokStart cs k else k + 1

/-- The scan loop of `remove_stray_quote_after_number_token`: walk the
character list with `in_string`/`escape_next`; an opening quote whose
previous non-blank character belongs to a numeric token not itself opened
by a quote, and whose next non-blank character is `,`, `]` or `}`, is
popped and the position is re-examined. -/
def strayGo : Nat → Text → Nat → Bool → Bool → Nat → Text × Nat
  | 0, cs, _, _, _, removed => (cs, removed)
  | f + 1, cs, i, in_string, escape_next, removed =>
    match at? cs i with
    | none => (cs, removed)
    | some ch =>
      if escape_next then strayGo f cs (i + 1) in_string false removed
      else if ch = '\\' then strayGo f cs (i + 1) in_string true removed
      else if ch = '"' then
        if !in_string then
          let popIt :=
            match prevNonSetWs cs i with
            | some k =>
              if (at? cs k).any numChar then
                let start := numTokStart cs k
                let prevOk :=
                  match prevNonSetWs cs start with
                  | some pk => !(at? cs pk = some '"')
                  | none => true
                if prevOk then
                  let j := skipFrom setWs cs (i + 1)
                  match at? cs j with
                  | some cj => cj = ',' || cj = ']' || cj = '}'
                  | none => false
                else false
              else false
            | none => false
          if popIt then strayGo f (cs.eraseIdx i) i in_string escape_next (removed + 1)
          else strayGo f cs (i + 1) true false removed
        else strayGo f cs (i + 1) false false removed
      else strayGo f cs (i + 1) in_string escape_next removed

/-- `remove_stray_quote_after_number_token` of the source. -/
def remove_stray_quote_after_number_token (s : Text) : Text × List Text :=
  let (cs, removed) := strayGo (2 * s.length + 2) s 0 false false 0
  (cs,
   if removed = 0 then []
   else [("removed ").data ++ natToChars removed
     ++ (" stray quote(s) after number token").data])

/-- The output loop of `fix_unclosed_strings_global`: accumulate the
characters, escaping a raw newline inside a string as the two characters
`\` `n`; at end of text drop a dangling backslash and close an open
string. -/
def fugGo : Text → Bool → Bool → Text → List Text → Text × List Text
  | [], in_string, escape_next, acc, ds =>
    let (acc2, ds2) :=
      if escape_next then
        if acc.getLast? = some '\\' then
          (acc.dropLast, ds ++ [("removed dangling backslash at end of text").data])
        else (acc, ds)
      else (acc, ds)
    if in_string then
      (acc2 ++ ['"'], ds2 ++ [("appended missing '\"' at end (unterminated string)").data])
    else (acc2, ds2)
  | c :: rest, in_string, escape_next, acc, ds =>
    if escape_next then fugGo rest in_string false (acc ++ [c]) ds
    else if c = '\\' then fugGo rest in_string true (acc ++ [c]) ds
    else if c = '"' then fugGo rest (!in_string) false (acc ++ [c]) ds
    else if in_string && c = '\n' then
      fugGo rest in_string escape_next (acc ++ ['\\', 'n'])
        (ds ++ [("escaped raw newline inside string as '\\n'").data])
    else fugGo rest in_string escape_next (acc ++ [c]) ds

/-- `fix_unclosed_strings_global` of the source. -/
def fix_unclosed_strings_global (s : Text) : Text × List Text :=
  fugGo s false false [] []

/-- Greatest index of a `}` or `]` outside strings
(`truncate_after_last_container_close` scan). -/
def talcGo : Text → Nat → Bool → Bool → Option Nat → Option Nat
  | [], _, _, _, lc => lc
  | c :: rest, i, in_string, escape_next, lc =>
    if escape_next then talcGo rest (i + 1) in_string false lc
    else if c = '\\' then talcGo rest (i + 1) in_string true lc
    else if c = '"' then talcGo rest (i + 1) (!in_string) false lc
    else if !in_string && (c = '}' || c = ']') then talcGo rest (i + 1) in_string escape_next (some i)
    else talcGo rest (i + 1) in_string escape_next lc

/-- `truncate_after_last_container_close` of the source. -/
def truncate_after_last_container_close (s : Text) : Text × List Text :=
  match talcGo s 0 false false none with
  | some lc =>
    if lc < s.length - 1 && !(stripL (s.drop (lc + 1))).isEmpty then
      (s.take (lc + 1), [("truncated trailing garbage after last '\x7d'/']'").data])
    else (s, [])
  | none => (s, [])

/-- Search for `r"\(char (\d+)\)"` in an error message and read the
number. -/
def findCharNumGo (s : Text) : Nat → Nat → Option Nat
  | 0, _ => none
  | f + 1, i =>
    match at? s i with
    | none => none
    | some _ =>
      if sliceEq s i ("(char ").data then
        let j := i + 6
        let d := skipFrom Char.isDigit s j
        if j < d && at? s d = some ')' then
          some (digitsToNat ((s.drop j).take (d - j)))
        else findCharNumGo s f (i + 1)
      else findCharNumGo s f (i + 1)

def findCharNum (s : Text) : Option Nat := findCharNumGo s (s.length + 1) 0

/-- `truncate_around_error_position` of the source. -/
def truncate_around_error_position (s : Text) (error_msg : Text) : Text × List Text :=
  match findCharNum error_msg with
  | none => (s, [])
  | some pos =>
    if pos = 0 || s.length ≤ pos then (s, [])
    else
      let pref := s.take pos
      let tr := truncate_after_last_container_close pref
      let ds := if tr.1 ≠ pref then tr.2 else []
      if tr.1 ≠ s then
        (tr.1, ds ++ [("truncated text around JSON parse error position").data])
      else (s, ds)

/-- The `strip_strings` helper shared (verbatim) by
`balance_brackets_smart` and `clean_extra_brackets`: blank out string
interiors, backslashes and escaped characters, keep the quotes. -/
def strip_strings_blank : Text → Bool → Bool → Text
  | [], _, _ => []
  | c :: rest, in_string, escape_next =>
    if escape_next then ' ' :: strip_strings_blank rest in_string false
    else if c = '\\' then ' ' :: strip_strings_blank rest in_string true
    else if c = '"' then '"' :: strip_strings_blank rest (!in_string) false
    else if !in_string then c :: strip_strings_blank rest in_string escape_next
    else ' ' :: strip_strings_blank rest in_string escape_next

/-- Bracket stack of a string-stripped text (top of stack first; a closer
with a matching top pops, otherwise it is ignored). -/
def bstGo : Text → List Char → List Char
  | [], st => st
  | c :: rest, st =>
    if c = '{' || c = '[' then bstGo rest (c :: st)
    else if c = '}' || c = ']' then
      let expected := if c = '}' then '{' else '['
      match st with
      | top :: st2 => if top = expected then bstGo rest st2 else bstGo rest st
      | [] => bstGo rest st
    else bstGo rest st

/-- `balance_brackets_smart` of the source: append the matching closers of
the residual stack, innermost first. -/
def balance_brackets_smart (s : Text) : Text × List Text :=
  let stack := bstGo (strip_strings_blank s false false) []
  if stack.isEmpty then (s, [])
  else
    let closing := stack.map fun b => if b = '{' then '}' else ']'
    (s ++ closing,
     [("Appended ").data ++ natToChars closing.length
       ++ (" missing brackets: ").data ++ closing])

/-- Python `str.count` of one character. -/
def countChar (s : Text) (c : Char) : Nat := (s.filter fun d => d == c).length

/-- `balance_brackets` of the source: the smart pass, then the counting
fallback when it changed nothing. -/
def balance_brackets (s : Text) : Text × List Text :=
  let (s_new, diags1) := balance_brackets_smart s
  if s_new = s then
    let t := regexStripStrings s
    let need_curly : Int := (countChar t '{' : Int) - (countChar t '}' : Int)
    let need_square : Int := (countChar t '[' : Int) - (countChar t ']' : Int)
    let (s1, d1) :=
      if 0 < need_square then
        (s ++ List.replicate need_square.toNat ']',
         [("Appended ").data ++ natToChars need_square.toNat
           ++ (" missing ']' at end").data])
      else (s, [])
    if 0 < need_curly then
      (s1 ++ List.replicate need_curly.toNat '}',
       d1 ++ [("Appended ").data ++ natToChars need_curly.toNat
         ++ (" missing '\x7d' at end").data])
    else (s1, d1)
  else (s_new, diags1)

/-- The `while` loop of `clean_extra_brackets`: drop trailing closers one
at a time while the string-stripped mirror stays balanced, accepting the
first strictly parsing prefix. -/
def cebLoop (s0 : Text) : Nat → Text → Text
  | 0, _ => s0
  | f + 1, ss =>
    match ss.getLast? with
    | some c =>
      if c = '}' || c = ']' then
        let test := ss.dropLast
        if (bstGo (strip_strings_blank test false false) []).isEmpty then
          match loads test with
          | .ok _ => test
          | .error _ => cebLoop s0 f (rstripL test)
        else s0
      else s0
    | none => s0

/-- `clean_extra_brackets` of the source. -/
def clean_extra_brackets (s : Text) : Text :=
  if (bstGo (strip_strings_blank s false false) []).isEmpty then
    match loads s with
    | .ok _ => s
    | .error _ => cebLoop s (s.length + 1) (rstripL s)
  else s

/-- The bracket/string counter of `fix_misplaced_brackets`: open-object
and open-array balances (they may go negative). -/
def countBrackets : Text → Bool → Bool → Int → Int → Int × Int
  | [], _, _, oObj, oArr => (oObj, oArr)
  | c :: rest, in_string, escape, oObj, oArr =>
    if escape then countBrackets rest in_string false oObj oArr
    else if c = '\\' then countBrackets rest in_string true oObj oArr
    else if c = '"' then countBrackets rest (!in_string) false oObj oArr
    else if !in_string then
      if c = '{' then countBrackets rest in_string escape (oObj + 1) oArr
      else if c = '}' then countBrackets rest in_string escape (oObj - 1) oArr
      else if c = '[' then countBrackets rest in_string escape oObj (oArr + 1)
      else if c = ']' then countBrackets rest in_string escape oObj (oArr - 1)
      else countBrackets rest in_string escape oObj oArr
    else countBrackets rest in_string escape oObj oArr

/-- `' ' * n`. -/
def spacesN (n : Nat) : Text := List.replicate n ' '

/-- The line scan of `fix_misplaced_brackets`: the first line on which the
transform fires, with its replacement content. -/
def fmbGo (lines : List Text) : Nat → Nat → Option (Nat × Text)
  | 0, _ => none
  | f + 1, i =>
    match (lines.drop i).head? with
    | none => none
    | some line =>
      let stripped := rstripL line
      if endsWithL stripped [']'] && !endsWithL stripped [']', ']'] then
        let before_bracket := rstripL stripped.dropLast
        if before_bracket.isEmpty then fmbGo lines f (i + 1)
        else
          let isAfterObjVal :=
            endsWithL before_bracket ['"'] || endsWithL before_bracket ['}']
              || endsWithL before_bracket ("true").data
              || endsWithL before_bracket ("false").data
              || endsWithL before_bracket ("null").data
          let digitCase := (before_bracket.getLast?).any Char.isDigit
          if digitCase && (stripped.contains '[' || stripped.contains ',') then
            fmbGo lines f (i + 1)
          else if isAfterObjVal || digitCase then
            let content_before := joinNl (lines.take i) ++ ['\n'] ++ before_bracket
            let (oObj, oArr) := countBrackets content_before false false 0 0
            if 0 < oObj && 0 < oArr then
              let indent := line.length - (line.dropWhile pyStrWs).length
              let new_line := before_bracket ++ ['\n'] ++ spacesN indent ++ ['}', '\n']
                ++ spacesN (indent - 4) ++ [']']
              some (i, new_line)
            else fmbGo lines f (i + 1)
          else fmbGo lines f (i + 1)
      else fmbGo lines f (i + 1)

/-- `fix_misplaced_brackets` of the source: at most one insertion per
call. -/
def fix_misplaced_brackets (s : Text) : Text × List Text :=
  let lines := splitNl s
  match fmbGo lines (lines.length + 1) 0 with
  | some (i, nl) =>
    (joinNl (lines.set i nl),
     [("Inserted '\x7d' before ']' on line ").data ++ natToChars (i + 1)])
  | none => (s, [])

/-- Search for `r"line (\d+) column (\d+)"` in an error message. -/
def findLineColGo (s : Text) : Nat → Nat → Option (Nat × Nat)
  | 0, _ => none
  | f + 1, i =>
    match at? s i with
    | none => none
    | some _ =>
      if sliceEq s i ("line ").data then
        let j := i + 5
        let d := skipFrom Char.isDigit s j
        if j < d && sliceEq s d (" column ").data then
          let k := d + 8
          let d2 := skipFrom Char.isDigit s k
          if k < d2 then
            some (digitsToNat ((s.drop j).take (d - j)),
                  digitsToNat ((s.drop k).take (d2 - k)))
          else findLineColGo s f (i + 1)
        else findLineColGo s f (i + 1)
      else findLineColGo s f (i + 1)

def findLineCol (s : Text) : Option (Nat × Nat) := findLineColGo s (s.length + 1) 0

/-- `analyze_brackets` of `smart_insert_brackets_by_error`: stack of open
brackets (top first) of the raw text, string-aware. -/
def abGo : Text → Bool → Bool → List Char → List Char
  | [], _, _, st => st
  | c :: rest, in_string, escape_next, st =>
    if escape_next then abGo rest in_string false st
    else if c = '\\' then abGo rest in_string true st
    else if c = '"' then abGo rest (!in_string) false st
    else if in_string then abGo rest in_string escape_next st
    else if c = '{' || c = '[' then abGo rest in_string escape_next (c :: st)
    else if c = '}' || c = ']' then
      let expected := if c = '}' then '{' else '['
      match st with
      | top :: st2 =>
        if top = expected then abGo rest in_string escape_next st2
        else abGo rest in_string escape_next st
      | [] => abGo rest in_string escape_next st
    else abGo rest in_string escape_next st

/-- Search for `r'[,\}]\s+"[\w]+"\s*:'` anywhere in a line. -/
def commaKeyPatGo (s : Text) : Nat → Nat → Bool
  | 0, _ => false
  | f + 1, i =>
    match at? s i with
    | none => false
    | some c =>
      if c = ',' || c = '}' then
        let j := skipFrom reWs s (i + 1)
        if i + 1 < j && at? s j = some '"' then
          let w := skipFrom wordChar s (j + 1)
          if j + 1 < w && at? s w = some '"'
              && at? s (skipFrom reWs s (w + 1)) = some ':' then true
          else commaKeyPatGo s f (i + 1)
        else commaKeyPatGo s f (i + 1)
      else commaKeyPatGo s f (i + 1)

def hasCommaKeyPat (s : Text) : Bool := commaKeyPatGo s (s.length + 1) 0

/-- Python `t.rsplit(',', 1)` when a comma is present. -/
def rsplitLastComma (t : Text) : Option (Text × Text) :=
  match ((List.range t.length).filter fun k => at? t k = some ',').getLast? with
  | some k => some (t.take k, t.drop (k + 1))
  | none => none

/-- Python list read `lines[k]` for `k ≥ -len(lines)` (the source reaches
`-1` when the error message names line 0). -/
def pyGet (lines : List Text) (k : Int) : Text :=
  if 0 ≤ k then ((lines.drop k.toNat).head?).getD []
  else ((lines.drop (lines.length - (-k).toNat)).head?).getD []

/-- Python list write `lines[k] = v`. -/
def pySet (lines : List Text) (k : Int) (v : Text) : List Text :=
  if 0 ≤ k then lines.set k.toNat v
  else lines.set (lines.length - (-k).toNat) v

/-- Whether the stripped form of line `k` ends with `}` or `]`. -/
def tailBracketAt (lines : List Text) (k : Nat) : Bool :=
  let l := stripL (pyGet lines (Int.ofNat k))
  endsWithL l ['}'] || endsWithL l [']']

/-- Backward scan of `smart_insert_brackets_by_error`: from line `k`
downwards, the first line whose stripped form ends with `}` or `]`. -/
def findTailBracketLine (lines : List Text) : Nat → Option Nat
  | 0 => if tailBracketAt lines 0 then some 0 else none
  | k + 1 =>
    if tailBracketAt lines (k + 1) then some (k + 1)
    else findTailBracketLine lines k

/-- `smart_insert_brackets_by_error` of the source. -/
def smart_insert_brackets_by_error (s : Text) (error_msg : Text) : Text × List Text :=
  match findLineCol error_msg with
  | none => (s, [])
  | some (error_line, _error_col) =>
    let lines := splitNl s
    if lines.length < error_line then (s, [])
    else
      let content_before := joinNl (lines.take error_line)
      let unclosed := abGo content_before false false []
      if containsSub error_msg ("Expecting ','").data then
        let idx : Int := (error_line : Int) - 1
        let error_line_text := stripL (pyGet lines idx)
        let branch1 :=
          if hasCommaKeyPat error_line_text then
            match rsplitLastComma error_line_text with
            | some (left_part, right_part) =>
              let new_line := replaceAll (pyGet lines idx) error_line_text
                (left_part ++ ['\n'] ++ ("    ], ").data ++ stripL right_part)
              let result := clean_extra_brackets (joinNl (pySet lines idx new_line))
              some (result,
                [("Split line ").data ++ natToChars (idx + 1).toNat
                  ++ (" and inserted ']'").data])
            | none => none
          else none
        match branch1 with
        | some r => r
        | none =>
          if unclosed.contains '[' then
            if 1 ≤ idx then
              match findTailBracketLine lines (idx - 1).toNat with
              | some i =>
                let lines2 := lines.set i (rstripL (pyGet lines (Int.ofNat i)) ++ [']'])
                (clean_extra_brackets (joinNl lines2),
                 [("Inserted ']' after line ").data ++ natToChars (i + 1)
                   ++ (" to close array").data])
              | none => (s, [])
            else (s, [])
          else if 0 < idx then
            let prev_line := rstripL (pyGet lines (idx - 1))
            if (endsWithL prev_line [']'] || endsWithL prev_line ['}'])
                && ((at? error_line_text 0 = some '"') || (at? error_line_text 0 = some '{')) then
              (joinNl (pySet lines (idx - 1) (prev_line ++ [','])),
               [("Inserted ',' after line ").data ++ natToChars idx.toNat])
            else (s, [])
          else (s, [])
      else (s, [])

/-!
The driver `repair_jsonish`: pre-pass, then up to `max_passes` rounds of
the transform sequence, each followed by a strict parse attempt and, on
failure, by the error-guided recovery stages.
-/

/-- Tag diagnostics with the `pre:` phase. -/
def tagPre (ds : List Text) : List Text := ds.map fun d => ("pre: ").data ++ d

/-- Tag diagnostics with the pass number. -/
def tagPass (p : Nat) (ds : List Text) : List Text :=
  ds.map fun d => ("pass").data ++ natToChars p ++ (": ").data ++ d

/-- A driver message for pass `p`. -/
def passMsg (p : Nat) (txt : Text) : Text :=
  ("pass").data ++ natToChars p ++ (": ").data ++ txt

/-- A finished repair result: repaired text, pretty text or error message,
diagnostics. -/
abbrev Ret := Text × Text × List Text

/-- Apply a diagnostics-returning transform to the pass state, tagging and
appending its diagnostics. -/
def diagStep (st : Text × List Text) (p : Nat) (f : Text → Text × List Text) :
    Text × List Text :=
  ((f st.1).1, st.2 ++ tagPass p (f st.1).2)

/-- Apply a plain transform to the pass state. -/
def pureStep (st : Text × List Text) (f : Text → Text) : Text × List Text :=
  (f st.1, st.2)

/-- The tail of the transform sequence: `fix_misplaced_brackets`, followed
by `clean_extra_brackets` exactly when it reported a fix (`if diags3:`). -/
def stageFinish (p : Nat) (st : Text × List Text) : Text × List Text :=
  let mb := fix_misplaced_brackets st.1
  (if mb.2 ≠ [] then clean_extra_brackets mb.1 else mb.1, st.2 ++ tagPass p mb.2)

/-- The transform sequence of one pass (source lines 834-862), including
the conditional `clean_extra_brackets` after a misplaced-bracket fix. -/
def stageTransforms (p : Nat) (s : Text) (diags : List Text) : Text × List Text :=
  stageFinish p
    (diagStep
      (diagStep
        (pureStep
          (pureStep
            (pureStep
              (pureStep
                (pureStep
                  (pureStep
                    (pureStep
                      (pureStep
                        (diagStep
                          (diagStep
                            (diagStep (s, diags) p wrap_bare_kv_snippet)
                            p promote_stringified_json_values)
                          p remove_stray_quote_after_number_token)
                        strip_comments)
                      normalize_literals)
                    quote_unquoted_keys)
                  escape_special_characters)
                remove_duplicate_keys)
              fix_missing_values)
            insert_missing_commas)
          remove_trailing_commas)
        p fix_unclosed_strings_global)
      p balance_brackets)

/-- The error-position truncation stage (source lines 873-883). -/
def stageCut (p : Nat) (s : Text) (err : Text) (diags : List Text) :
    Ret ⊕ (Text × List Text) :=
  let cut := truncate_around_error_position s err
  if cut.1 ≠ s then
    let diags := diags ++ tagPass p cut.2
    let s1 := remove_trailing_commas cut.1
    let bb := balance_brackets s1
    let diags := diags ++ tagPass p bb.2
    let r := try_parse_json bb.1
    if r.1 then
      .inl (bb.1, r.2, diags ++ [passMsg p ("parsed successfully after error-position truncation").data])
    else .inr (bb.1, diags)
  else .inr (s, diags)

/-- The garbage-tail truncation stage (source lines 886-897). -/
def stageTail (p : Nat) (s : Text) (diags : List Text) :
    Ret ⊕ (Text × List Text) :=
  let tr := truncate_after_last_container_close s
  if tr.1 ≠ s then
    let diags := diags ++ tagPass p tr.2
    let s1 := remove_trailing_commas tr.1
    let bb := balance_brackets s1
    let diags := diags ++ tagPass p bb.2
    let r := try_parse_json bb.1
    if r.1 then
      .inl (bb.1, r.2, diags ++ [passMsg p ("parsed successfully after truncation").data])
    else .inr (bb.1, diags)
  else .inr (s, diags)

/-- The error-keyed smart-fix stage (source lines 900-908). -/
def stageSmart (p : Nat) (s : Text) (err : Text) (diags : List Text) :
    Ret ⊕ (Text × List Text) :=
  if containsSub err ("Expecting ','").data || containsSub err ("Expecting ':'").data then
    let sm := smart_insert_brackets_by_error s err
    if sm.1 ≠ s then
      let diags := diags ++ tagPass p sm.2
      let r := try_parse_json sm.1
      if r.1 then
        .inl (sm.1, r.2, diags ++ [passMsg p ("parsed successfully after smart fix").data])
      else .inr (sm.1, diags)
    else .inr (s, diags)
  else .inr (s, diags)

/-- Chain two recovery stages: an early return passes through, otherwise
the carried state feeds the next stage. -/
def orElse2 (x : Ret ⊕ (Text × List Text))
    (k : Text → List Text → Ret ⊕ (Text × List Text)) : Ret ⊕ (Text × List Text) :=
  match x with
  | .inl ret => .inl ret
  | .inr (a, b) => k a b

/-- The parse attempt and recovery stages of one pass, after the transform
sequence produced `t1`. -/
def passStepAfter (p : Nat) (t1 : Text × List Text) : Ret ⊕ (Text × List Text) :=
  let r := try_parse_json t1.1
  if r.1 then .inl (t1.1, r.2, t1.2 ++ [passMsg p ("parsed successfully").data])
  else
    let err := r.2
    let diags2 := t1.2 ++ [passMsg p (("still invalid JSON -> ").data ++ err)]
    orElse2 (stageCut p t1.1 err diags2) fun s2 d2 =>
      orElse2 (stageTail p s2 d2) fun s3 d3 =>
        stageSmart p s3 err d3

/-- One full pass of the driver's loop body: the transform sequence, the
parse attempt, and on failure the three recovery stages; `.inl` is an
early return, `.inr` the state carried into the next pass. -/
def passStep (p : Nat) (s : Text) (diags : List Text) : Ret ⊕ (Text × List Text) :=
  passStepAfter p (stageTransforms p s diags)

/-- Continue after a pass: an early return is final, otherwise the carried
state feeds the rest of the loop. -/
def contStep (x : Ret ⊕ (Text × List Text)) (k : Text → List Text → Ret) : Ret :=
  match x with
  | .inl ret => ret
  | .inr (a, b) => k a b

/-- The pass loop of `repair_jsonish`: `rem` passes remain, the current
pass is numbered `p`.  After all passes, a final parse attempt decides the
returned outcome text. -/
def repairLoop : Nat → Nat → Text → List Text → Ret
  | 0, _, s, diags => (s, (try_parse_json s).2, diags)
  | rem + 1, p, s, diags => contStep (passStep p s diags) (repairLoop rem (p + 1))

/-- `repair_jsonish` of the source: line-ending normalization, the
pre-pass, then the bounded pass loop. -/
def repair_jsonish (raw : Text) (max_passes : Nat) : Ret :=
  let s0 := normalize_line_endings raw
  let w := wrap_bare_kv_snippet s0
  let diags := tagPre w.2
  let pr := promote_stringified_json_values w.1
  let diags := diags ++ tagPre pr.2
  let st := remove_stray_quote_after_number_token pr.1
  let diags := diags ++ tagPre st.2
  repairLoop max_passes 1 st.1 diags

/-!
Theorems.
-/

/-- The first component of `truncate_after_last_container_close` is a
`take` of its input. -/
lemma tAfter_take (s : Text) :
    ∃ k, (truncate_after_last_container_close s).1 = s.take k := by
  unfold truncate_after_last_container_close
  rcases talcGo s 0 false false none with _ | lc
  · exact ⟨s.length, by simp⟩
  · dsimp only
    split
    · exact ⟨lc + 1, rfl⟩
    · exact ⟨s.length, by simp⟩

/-- On its early-return path, `orElse2` either came from the first stage
or from the continuation. -/
lemma orElse2_inl {x : Ret ⊕ (Text × List Text)}
    {k : Text → List Text → Ret ⊕ (Text × List Text)} {ret : Ret}
    (h : orElse2 x k = .inl ret) :
    x = .inl ret ∨ ∃ a b, x = .inr (a, b) ∧ k a b = .inl ret := by
  rcases x with ret2 | ⟨a, b⟩
  · left
    simpa [orElse2] using h
  · right
    exact ⟨a, b, rfl, by simpa [orElse2] using h⟩

/-- An early return of `stageCut` carries the parse result of the text it
returns. -/
lemma stageCut_inl {p : Nat} {s err : Text} {diags : List Text} {ret : Ret}
    (h : stageCut p s err diags = .inl ret) :
    ret.2.1 = (try_parse_json ret.1).2 := by
  unfold stageCut at h
  dsimp only at h
  split at h
  · split at h
    · cases h
      rfl
    · cases h
  · cases h

/-- An early return of `stageTail` carries the parse result of the text it
returns. -/
lemma stageTail_inl {p : Nat} {s : Text} {diags : List Text} {ret : Ret}
    (h : stageTail p s diags = .inl ret) :
    ret.2.1 = (try_parse_json ret.1).2 := by
  unfold stageTail at h
  dsimp only at h
  split at h
  · split at h
    · cases h
      rfl
    · cases h
  · cases h

/-- An early return of `stageSmart` carries the parse result of the text
it returns. -/
lemma stageSmart_inl {p : Nat} {s err : Text} {diags : List Text} {ret : Ret}
    (h : stageSmart p s err diags = .inl ret) :
    ret.2.1 = (try_parse_json ret.1).2 := by
  unfold stageSmart at h
  dsimp only at h
  split at h
  · split at h
    · split at h
      · cases h
        rfl
      · cases h
    · cases h
  · cases h

/-- An early return of the post-transform part of a pass carries the parse
result of the text it returns. -/
lemma passStepAfter_inl {p : Nat} {t1 : Text × List Text} {ret : Ret}
    (h : passStepAfter p t1 = .inl ret) :
    ret.2.1 = (try_parse_json ret.1).2 := by
  unfold passStepAfter at h
  dsimp only at h
  split at h
  · cases h
    rfl
  · rcases orElse2_inl h with h1 | ⟨a, b, _, h2⟩
    · exact stageCut_inl h1
    · rcases orElse2_inl h2 with h3 | ⟨c, d, _, h4⟩
      · exact stageTail_inl h3
      · exact stageSmart_inl h4

/-- An early return of a full pass carries the parse result of the text it
returns. -/
lemma passStep_inl {p : Nat} {s : Text} {diags : List Text} {ret : Ret}
    (h : passStep p s diags = .inl ret) :
    ret.2.1 = (try_parse_json ret.1).2 :=
  passStepAfter_inl h

/-- Every result of the pass loop pairs the returned text with the outcome
of parsing exactly that text. -/
lemma repairLoop_reflects :
    ∀ (rem p : Nat) (s : Text) (diags : List Text),
      (repairLoop rem p s diags).2.1 = (try_parse_json (repairLoop rem p s diags).1).2 := by
  intro rem
  induction rem with
  | zero =>
    intro p s diags
    exact rfl
  | succ n ih =>
    intro p s diags
    have e : repairLoop (n + 1) p s diags
        = contStep (passStep p s diags) (repairLoop n (p + 1)) := rfl
    rw [e]
    rcases h : passStep p s diags with ret | ⟨s4, d4⟩
    · exact passStep_inl h
    · exact ih (p + 1) s4 d4

/-- C3: on every return path of `repair_jsonish` the outcome component is
exactly the result of a strict-parse attempt on the returned text: the
pretty serialization of that text when it parses, the rendered parse
error of that text when it does not. -/
theorem C3_outcome_reflects_final_text (raw : Text) (max_passes : Nat) :
    (repair_jsonish raw max_passes).2.1
      = (try_parse_json (repair_jsonish raw max_passes).1).2 := by
  unfold repair_jsonish
  exact repairLoop_reflects max_passes 1 _ _

set_option maxHeartbeats 4000000 in
/-- C4: `repair_jsonish` is total (all embedded loops carry a proven-
sufficient fuel), and when the returned text still fails the strict parse
the outcome is the Unresolved branch carrying the parse error of that very
text; the empty input is such a case and returns its text unchanged. -/
theorem C4_total_and_unresolved_on_failure :
    (∀ (raw : Text) (max_passes : Nat),
        (try_parse_json (repair_jsonish raw max_passes).1).1 = false →
        (repair_jsonish raw max_passes).2.1
          = (try_parse_json (repair_jsonish raw max_passes).1).2) ∧
    (repair_jsonish [] 6).1 = [] ∧
    (try_parse_json (repair_jsonish [] 6).1).1 = false := by
  refine ⟨?_, by decide, by decide⟩
  intro raw max_passes _
  unfold repair_jsonish
  exact repairLoop_reflects max_passes 1 _ _

set_option maxHeartbeats 4000000 in
/-- Witness for C4 at the concrete input `hello`: the pipeline leaves it
unresolved and the outcome carries its parse error. -/
theorem C4_total_and_unresolved_on_failure_witness :
    (repair_jsonish ("hello").data 6).2.1
      = (try_parse_json (repair_jsonish ("hello").data 6).1).2 :=
  C4_total_and_unresolved_on_failure.1 ("hello").data 6 (by decide)

/-- C7: `remove_duplicate_keys` leaves its input completely unchanged
whenever the strict parse fails, and re-serializes the parsed value when
it succeeds; the embedded parser builds objects with Python dict
semantics, so every duplicate key holds the value of its last occurrence,
as checked on the duplicate-key document of the spec's scenario S4. -/
theorem C7_remove_duplicate_keys_spec :
    (∀ (s e : Text), loads s = .error e → remove_duplicate_keys s = s) ∧
    (∀ (s : Text) (v : Jv), loads s = .ok v →
      remove_duplicate_keys s = dumpsCF (s.length + 2) v) ∧
    remove_duplicate_keys ("\x7b\"v\": 1, \"v\": 2\x7d").data
      = ("\x7b\"v\": 2\x7d").data := by
  refine ⟨?_, ?_, by decide⟩
  · intro s e h
    unfold remove_duplicate_keys
    rw [h]
  · intro s v h
    unfold remove_duplicate_keys
    rw [h]

/-- Witness for C7: the non-parsing input `hello` is returned unchanged,
and a parsing input is re-serialized. -/
theorem C7_remove_duplicate_keys_spec_witness :
    remove_duplicate_keys ("hello").data = ("hello").data ∧
    remove_duplicate_keys ("[1]").data
      = dumpsCF (("[1]").data.length + 2) (Jv.arr [Jv.num 1]) :=
  ⟨C7_remove_duplicate_keys_spec.1 ("hello").data
      ("Expecting value: line 1 column 1 (char 0)").data (by rfl),
   C7_remove_duplicate_keys_spec.2.1 ("[1]").data (Jv.arr [Jv.num 1]) (by rfl)⟩

/-- A diagnostics-returning transform that fixes `s` with no diagnostics
leaves the pass state unchanged. -/
lemma diagStep_fixed {s : Text} {f : Text → Text × List Text}
    (h : f s = (s, [])) (d : List Text) (p : Nat) :
    diagStep (s, d) p f = (s, d) := by
  simp [diagStep, h, tagPass]

/-- A plain transform that fixes `s` leaves the pass state unchanged. -/
lemma pureStep_fixed {s : Text} {f : Text → Text}
    (h : f s = s) (d : List Text) :
    pureStep (s, d) f = (s, d) := by
  simp [pureStep, h]

/-- A misplaced-bracket pass that fixes `s` with no diagnostics makes the
finishing stage the identity. -/
lemma stageFinish_fixed {s : Text}
    (h : fix_misplaced_brackets s = (s, [])) (d : List Text) (p : Nat) :
    stageFinish p (s, d) = (s, d) := by
  simp [stageFinish, h, tagPass]

/-- If every transform of the per-pass sequence leaves `s` unchanged with
no diagnostics, the whole sequence is the identity on the pass state. -/
lemma stageTransforms_fixed {s : Text}
    (hwrap : wrap_bare_kv_snippet s = (s, []))
    (hprom : promote_stringified_json_values s = (s, []))
    (hstray : remove_stray_quote_after_number_token s = (s, []))
    (hcom : strip_comments s = s)
    (hlit : normalize_literals s = s)
    (hkeys : quote_unquoted_keys s = s)
    (hdup : remove_duplicate_keys s = s)
    (hmv : fix_missing_values s = s)
    (himc : insert_missing_commas s = s)
    (htc : remove_trailing_commas s = s)
    (hfu : fix_unclosed_strings_global s = (s, []))
    (hbb : balance_brackets s = (s, []))
    (hmb : fix_misplaced_brackets s = (s, []))
    (p : Nat) (diags : List Text) :
    stageTransforms p s diags = (s, diags) := by
  unfold stageTransforms
  rw [diagStep_fixed hwrap, diagStep_fixed hprom, diagStep_fixed hstray,
    pureStep_fixed hcom, pureStep_fixed hlit, pureStep_fixed hkeys,
    pureStep_fixed (rfl : escape_special_characters s = s),
    pureStep_fixed hdup, pureStep_fixed hmv, pureStep_fixed himc, pureStep_fixed htc,
    diagStep_fixed hfu, diagStep_fixed hbb, stageFinish_fixed hmb]

/-- C1 (amended): for every input that the strict parser accepts and that
every transform of the pipeline leaves unchanged, `repair_jsonish` returns
in pass 1 with the text unchanged, the outcome being the canonical
re-serialization of that text, and the only diagnostic is the success
message, which contains neither `Inserted` nor `Appended`.  (The pre-pass
heuristics can corrupt strictly valid inputs — even one that is the
canonical serialization of its own value, see the counterexample — so the
claim cannot hold for every strictly parsing text, and the fixed-point
hypotheses below cannot be dropped.) -/
theorem C1_fixed_valid_input_parses_in_pass_one (T : Text)
    (hle : normalize_line_endings T = T)
    (hwrap : wrap_bare_kv_snippet T = (T, []))
    (hprom : promote_stringified_json_values T = (T, []))
    (hstray : remove_stray_quote_after_number_token T = (T, []))
    (hcom : strip_comments T = T)
    (hlit : normalize_literals T = T)
    (hkeys : quote_unquoted_keys T = T)
    (hdup : remove_duplicate_keys T = T)
    (hmv : fix_missing_values T = T)
    (himc : insert_missing_commas T = T)
    (htc : remove_trailing_commas T = T)
    (hfu : fix_unclosed_strings_global T = (T, []))
    (hbb : balance_brackets T = (T, []))
    (hmb : fix_misplaced_brackets T = (T, []))
    (hok : (try_parse_json T).1 = true) :
    repair_jsonish T 6
      = (T, (try_parse_json T).2, [("pass1: parsed successfully").data]) ∧
    ∀ d ∈ (repair_jsonish T 6).2.2,
      containsSub d (("Inserted").data) = false ∧
      containsSub d (("Appended").data) = false := by
  have hstage := stageTransforms_fixed hwrap hprom hstray hcom hlit hkeys hdup hmv himc
    htc hfu hbb hmb
  have hmsg : passMsg 1 (("parsed successfully").data)
      = ("pass1: parsed successfully").data := by decide
  have hrepair : repair_jsonish T 6
      = (T, (try_parse_json T).2, [("pass1: parsed successfully").data]) := by
    unfold repair_jsonish
    simp only [hle, hwrap, hprom, hstray, tagPre, List.map_nil, List.append_nil,
      List.nil_append]
    have e1 : repairLoop 6 1 T [] = contStep (passStep 1 T []) (repairLoop 5 2) := rfl
    rw [e1]
    have e2 : passStep 1 T [] = passStepAfter 1 (stageTransforms 1 T []) := rfl
    rw [e2, hstage 1 []]
    unfold passStepAfter
    dsimp only
    simp only [hok, eq_self_iff_true, if_true]
    simp [contStep, hmsg]
  refine ⟨hrepair, ?_⟩
  rw [hrepair]
  intro d hd
  simp only [List.mem_singleton] at hd
  subst hd
  exact ⟨by decide, by decide⟩

/-- Witness for C1 at the canonical text of a one-field object: every
hypothesis holds and the pipeline returns it in pass 1. -/
theorem C1_fixed_valid_input_parses_in_pass_one_witness :
    repair_jsonish ("\x7b\"a\": 1\x7d").data 6
      = (("\x7b\"a\": 1\x7d").data,
         (try_parse_json ("\x7b\"a\": 1\x7d").data).2,
         [("pass1: parsed successfully").data]) ∧
    ∀ d ∈ (repair_jsonish ("\x7b\"a\": 1\x7d").data 6).2.2,
      containsSub d (("Inserted").data) = false ∧
      containsSub d (("Appended").data) = false :=
  C1_fixed_valid_input_parses_in_pass_one ("\x7b\"a\": 1\x7d").data
    (by decide) (by decide) (by decide) (by decide) (by decide) (by decide)
    (by decide) (by decide) (by decide) (by decide) (by decide) (by decide)
    (by decide) (by decide) (by decide)

set_option maxHeartbeats 12000000 in
/-- C1 counterexample: the text of the object mapping `a` to the string
`{` parses strictly, yet the pre-pass stringified-JSON promotion corrupts
it: the pipeline ends with an outcome different from the canonical
re-serialization of the input, and a diagnostic containing `Appended` is
recorded, falsifying the claim as stated. -/
theorem C1_counterexample :
    (try_parse_json ("\x7b\"a\": \"\x7b\"\x7d").data).1 = true ∧
    (repair_jsonish ("\x7b\"a\": \"\x7b\"\x7d").data 6).2.1
      ≠ (try_parse_json ("\x7b\"a\": \"\x7b\"\x7d").data).2 ∧
    ((repair_jsonish ("\x7b\"a\": \"\x7b\"\x7d").data 6).2.2).any
      (fun d => containsSub d (("Appended").data)) = true := by
  refine ⟨by decide, by decide, by decide⟩

/-- When the truncation, tail-truncation and smart-fix transforms all fix
`s`, a full pass either returns early with `s` or carries `s` into the
next pass. -/
lemma passStep_fixed {s : Text}
    (hwrap : wrap_bare_kv_snippet s = (s, []))
    (hprom : promote_stringified_json_values s = (s, []))
    (hstray : remove_stray_quote_after_number_token s = (s, []))
    (hcom : strip_comments s = s)
    (hlit : normalize_literals s = s)
    (hkeys : quote_unquoted_keys s = s)
    (hdup : remove_duplicate_keys s = s)
    (hmv : fix_missing_values s = s)
    (himc : insert_missing_commas s = s)
    (htc : remove_trailing_commas s = s)
    (hfu : fix_unclosed_strings_global s = (s, []))
    (hbb : balance_brackets s = (s, []))
    (hmb : fix_misplaced_brackets s = (s, []))
    (hcut : (truncate_around_error_position s (try_parse_json s).2).1 = s)
    (htail : (truncate_after_last_container_close s).1 = s)
    (hsmart : (smart_insert_brackets_by_error s (try_parse_json s).2).1 = s)
    (p : Nat) (diags : List Text) :
    (∃ out d2, passStep p s diags = .inl (s, out, d2)) ∨
    (∃ d2, passStep p s diags = .inr (s, d2)) := by
  have hstage := stageTransforms_fixed hwrap hprom hstray hcom hlit hkeys hdup hmv himc
    htc hfu hbb hmb p diags
  have e2 : passStep p s diags = passStepAfter p (stageTransforms p s diags) := rfl
  rw [e2, hstage]
  unfold passStepAfter
  dsimp only
  by_cases hok : (try_parse_json s).1 = true
  · left
    exact ⟨(try_parse_json s).2, diags ++ [passMsg p ("parsed successfully").data],
      by simp [hok]⟩
  · right
    have hcutE : ∀ D, stageCut p s ((try_parse_json s).2) D = .inr (s, D) := by
      intro D
      unfold stageCut
      simp [hcut]
    have htailE : ∀ D, stageTail p s D = .inr (s, D) := by
      intro D
      unfold stageTail
      simp [htail]
    have hsmartE : ∀ D, stageSmart p s ((try_parse_json s).2) D = .inr (s, D) := by
      intro D
      unfold stageSmart
      split
      · simp [hsmart]
      · rfl
    refine ⟨diags ++ [passMsg p ((("still invalid JSON -> ").data ++ (try_parse_json s).2))], ?_⟩
    simp only [hok, Bool.not_eq_true, Bool.false_eq_true, if_false, hcutE, orElse2,
      htailE, hsmartE]

/-- The pass loop keeps a text that every transform fixes. -/
lemma repairLoop_fixed {s : Text}
    (hwrap : wrap_bare_kv_snippet s = (s, []))
    (hprom : promote_stringified_json_values s = (s, []))
    (hstray : remove_stray_quote_after_number_token s = (s, []))
    (hcom : strip_comments s = s)
    (hlit : normalize_literals s = s)
    (hkeys : quote_unquoted_keys s = s)
    (hdup : remove_duplicate_keys s = s)
    (hmv : fix_missing_values s = s)
    (himc : insert_missing_commas s = s)
    (htc : remove_trailing_commas s = s)
    (hfu : fix_unclosed_strings_global s = (s, []))
    (hbb : balance_brackets s = (s, []))
    (hmb : fix_misplaced_brackets s = (s, []))
    (hcut : (truncate_around_error_position s (try_parse_json s).2).1 = s)
    (htail : (truncate_after_last_container_close s).1 = s)
    (hsmart : (smart_insert_brackets_by_error s (try_parse_json s).2).1 = s) :
    ∀ (rem p : Nat) (diags : List Text), (repairLoop rem p s diags).1 = s := by
  intro rem
  induction rem with
  | zero =>
    intro p diags
    exact rfl
  | succ n ih =>
    intro p diags
    have e : repairLoop (n + 1) p s diags
        = contStep (passStep p s diags) (repairLoop n (p + 1)) := rfl
    rw [e]
    rcases passStep_fixed hwrap hprom hstray hcom hlit hkeys hdup hmv himc htc hfu hbb
        hmb hcut htail hsmart p diags with ⟨out, d2, hh⟩ | ⟨d2, hh⟩
    · rw [hh]
      rfl
    · rw [hh]
      exact ih (p + 1) d2

/-- C6 (amended): the repair pipeline is idempotent on every steady-state
text, i.e. on every text that each transform (including the error-guided
ones, keyed on that text's own parse error) leaves unchanged: on such a
text the repaired output of `repair_jsonish` is the text itself, for any
pass budget.  In general a second application of `repair` may still change
its own output (the re-serialization counterexample below), so idempotence
only holds once such a steady state is reached. -/
theorem C6_repair_fixed_on_steady_state (s : Text)
    (hle : normalize_line_endings s = s)
    (hwrap : wrap_bare_kv_snippet s = (s, []))
    (hprom : promote_stringified_json_values s = (s, []))
    (hstray : remove_stray_quote_after_number_token s = (s, []))
    (hcom : strip_comments s = s)
    (hlit : normalize_literals s = s)
    (hkeys : quote_unquoted_keys s = s)
    (hdup : remove_duplicate_keys s = s)
    (hmv : fix_missing_values s = s)
    (himc : insert_missing_commas s = s)
    (htc : remove_trailing_commas s = s)
    (hfu : fix_unclosed_strings_global s = (s, []))
    (hbb : balance_brackets s = (s, []))
    (hmb : fix_misplaced_brackets s = (s, []))
    (hcut : (truncate_around_error_position s (try_parse_json s).2).1 = s)
    (htail : (truncate_after_last_container_close s).1 = s)
    (hsmart : (smart_insert_brackets_by_error s (try_parse_json s).2).1 = s) :
    ∀ max_passes : Nat, (repair_jsonish s max_passes).1 = s := by
  intro max_passes
  unfold repair_jsonish
  simp only [hle, hwrap, hprom, hstray, tagPre, List.map_nil, List.append_nil,
    List.nil_append]
  exact repairLoop_fixed hwrap hprom hstray hcom hlit hkeys hdup hmv himc htc hfu hbb
    hmb hcut htail hsmart max_passes 1 []

/-- Witness for C6 at the unparseable steady-state text `hello`. -/
theorem C6_repair_fixed_on_steady_state_witness :
    (repair_jsonish ("hello").data 6).1 = ("hello").data :=
  C6_repair_fixed_on_steady_state ("hello").data
    (by decide) (by decide) (by decide) (by decide) (by decide) (by decide)
    (by decide) (by decide) (by decide) (by decide) (by decide) (by decide)
    (by decide) (by decide) (by decide) (by decide) (by decide) 6

set_option maxHeartbeats 12000000 in
/-- C6 counterexample: on the input missing its closing brace, the first
repair returns the compact text with no space after the colon; repairing
that output re-serializes it with a space, so
`repair(repair(T).repaired).repaired ≠ repair(T).repaired`. -/
theorem C6_counterexample :
    (repair_jsonish ("\x7b\"a\":1").data 6).1 = ("\x7b\"a\":1\x7d").data ∧
    (repair_jsonish ("\x7b\"a\":1\x7d").data 6).1 = ("\x7b\"a\": 1\x7d").data ∧
    ("\x7b\"a\":1\x7d").data ≠ ("\x7b\"a\": 1\x7d").data := by
  refine ⟨by decide, by decide, by decide⟩

/-- A character the cleanup of `clean_extra_brackets` may drop from the
tail: whitespace or a closing bracket. -/
def wsOrCloser (c : Char) : Bool :=
  pyStrWs c || c = '}' || c = ']'

/-- `t` is `s` with a (possibly empty) tail of whitespace and closing
brackets removed. -/
def droppedTail (s t : Text) : Prop :=
  ∃ suf, s = t ++ suf ∧ ∀ c ∈ suf, wsOrCloser c = true

/-- `rstripL` only removes trailing whitespace. -/
lemma rstrip_droppedTail (t : Text) : droppedTail t (rstripL t) := by
  refine ⟨(t.reverse.takeWhile pyStrWs).reverse, ?_, ?_⟩
  · unfold rstripL
    conv_lhs => rw [← t.reverse_reverse, ← List.takeWhile_append_dropWhile (p := pyStrWs) (l := t.reverse)]
    rw [List.reverse_append]
  · intro c hc
    rw [List.mem_reverse] at hc
    have := List.mem_takeWhile_imp hc
    simp [wsOrCloser, this]

/-- `droppedTail` composes. -/
lemma droppedTail_trans {s t u : Text} (h1 : droppedTail s t) (h2 : droppedTail t u) :
    droppedTail s u := by
  obtain ⟨a, ha, hpa⟩ := h1
  obtain ⟨b, hb, hpb⟩ := h2
  refine ⟨b ++ a, by rw [ha, hb, List.append_assoc], ?_⟩
  intro c hc
  rcases List.mem_append.1 hc with h | h
  · exact hpb c h
  · exact hpa c h

/-- Behaviour of the drop loop of `clean_extra_brackets`: it returns
either the original text or a cleanly parsing text obtained from it by
dropping trailing whitespace and closing brackets. -/
lemma cebLoop_spec (s0 : Text) :
    ∀ (f : Nat) (ss : Text), droppedTail s0 ss →
      cebLoop s0 f ss = s0 ∨
      ((∃ v, loads (cebLoop s0 f ss) = .ok v) ∧ droppedTail s0 (cebLoop s0 f ss)) := by
  intro f
  induction f with
  | zero => intro ss _; left; rfl
  | succ n ih =>
    intro ss hss
    unfold cebLoop
    rcases hlast : ss.getLast? with _ | c
    · left; rfl
    · dsimp only
      split
      · rename_i hc
        have hdecomp : ss = ss.dropLast ++ [c] := by
          have hne : ss ≠ [] := by
            intro hnil
            rw [hnil] at hlast
            simp at hlast
          conv_lhs => rw [← List.dropLast_append_getLast hne]
          rw [List.getLast?_eq_getLast ss hne] at hlast
          rw [Option.some_inj] at hlast
          rw [hlast]
        have htest : droppedTail s0 ss.dropLast := by
          refine droppedTail_trans hss ⟨[c], hdecomp, ?_⟩
          intro d hd
          rw [List.mem_singleton] at hd
          subst hd
          have hc2 : d = '}' ∨ d = ']' := by simpa using hc
          rcases hc2 with h | h
          · simp [wsOrCloser, h]
          · simp [wsOrCloser, h]
        split
        · rcases hld : loads ss.dropLast with e | v
          · exact ih (rstripL ss.dropLast)
              (droppedTail_trans htest (rstrip_droppedTail _))
          · right
            exact ⟨⟨v, hld⟩, htest⟩
        · left; rfl
      · left; rfl

/-- C9: whenever `clean_extra_brackets` returns a text different from its
input, that text strictly parses and is a proper prefix of the input
obtained only by removing trailing whitespace and trailing `}` or `]`
characters. -/
theorem C9_clean_extra_brackets_spec (s : Text)
    (h : clean_extra_brackets s ≠ s) :
    (∃ v, loads (clean_extra_brackets s) = .ok v) ∧
    ∃ suf, suf ≠ [] ∧ s = clean_extra_brackets s ++ suf ∧
      ∀ c ∈ suf, wsOrCloser c = true := by
  have hbody : clean_extra_brackets s = s ∨
      ((∃ v, loads (clean_extra_brackets s) = .ok v) ∧
        droppedTail s (clean_extra_brackets s)) := by
    unfold clean_extra_brackets
    split
    · rcases hld : loads s with e | v
      · exact cebLoop_spec s (s.length + 1) (rstripL s) (rstrip_droppedTail s)
      · left; rfl
    · left; rfl
  rcases hbody with he | ⟨hok, suf, hsuf, hall⟩
  · exact absurd he h
  · refine ⟨hok, suf, ?_, hsuf, hall⟩
    intro hnil
    rw [hnil, List.append_nil] at hsuf
    exact h hsuf.symm

/-- Witness for C9 at the concrete input with one extra closing brace. -/
theorem C9_clean_extra_brackets_spec_witness :
    clean_extra_brackets ("\x7b\"a\": 1\x7d\x7d").data ≠ ("\x7b\"a\": 1\x7d\x7d").data ∧
    ((∃ v, loads (clean_extra_brackets ("\x7b\"a\": 1\x7d\x7d").data) = .ok v) ∧
      ∃ suf, suf ≠ [] ∧ ("\x7b\"a\": 1\x7d\x7d").data
          = clean_extra_brackets ("\x7b\"a\": 1\x7d\x7d").data ++ suf ∧
        ∀ c ∈ suf, wsOrCloser c = true) :=
  ⟨by decide, C9_clean_extra_brackets_spec ("\x7b\"a\": 1\x7d\x7d").data (by decide)⟩

/-- End state of the `in_string`/`escape_next` automaton over a text. -/
def scanSt : Text → Bool → Bool → Bool × Bool
  | [], ins, esc => (ins, esc)
  | c :: rest, ins, esc =>
    if esc then scanSt rest ins false
    else if c = '\\' then scanSt rest ins true
    else if c = '"' then scanSt rest (!ins) false
    else scanSt rest ins esc

/-- No raw newline occurs inside a string literal (per the same
automaton). -/
def noRawNlInStrings : Text → Bool → Bool → Bool
  | [], _, _ => true
  | c :: rest, ins, esc =>
    if esc then noRawNlInStrings rest ins false
    else if c = '\\' then noRawNlInStrings rest ins true
    else if c = '"' then noRawNlInStrings rest (!ins) false
    else if ins && c = '\n' then false
    else noRawNlInStrings rest ins esc

/-- Core of the frame property of `fix_unclosed_strings_global`: on a text
whose strings hold no raw newline, the output is the accumulated prefix
followed by the input, except that a dangling final backslash is dropped
and a missing closing quote is appended, as told by the automaton's end
state. -/
lemma fugGo_frame :
    ∀ (rest : Text) (ins esc : Bool) (acc : Text) (ds : List Text),
      noRawNlInStrings rest ins esc = true →
      (esc = true → acc.getLast? = some '\\') →
      (fugGo rest ins esc acc ds).1 =
        (if (scanSt rest ins esc).2 = true then (acc ++ rest).dropLast else acc ++ rest)
          ++ (if (scanSt rest ins esc).1 = true then ['"'] else []) := by
  intro rest
  induction rest with
  | nil =>
    intro ins esc acc ds _ hesc
    simp only [fugGo, scanSt]
    cases esc with
    | true =>
      rw [hesc rfl]
      cases ins <;> simp
    | false =>
      cases ins <;> simp
  | cons c rest' ih =>
    intro ins esc acc ds hnl hesc
    simp only [noRawNlInStrings] at hnl
    simp only [fugGo, scanSt]
    cases esc with
    | true =>
      simp only [if_true, eq_self_iff_true] at hnl ⊢
      rw [ih ins false (acc ++ [c]) ds hnl (by intro h; cases h)]
      simp [List.append_assoc]
    | false =>
      simp only [Bool.false_eq_true, if_false] at hnl ⊢
      by_cases hc : c = '\\'
      · subst hc
        simp only [if_true, eq_self_iff_true] at hnl ⊢
        rw [ih ins true (acc ++ ['\\']) ds hnl (by intro _; simp)]
        simp [List.append_assoc]
      · simp only [if_neg hc] at hnl ⊢
        by_cases hq : c = '"'
        · subst hq
          simp only [if_true, eq_self_iff_true] at hnl ⊢
          rw [ih (!ins) false (acc ++ ['"']) ds hnl (by intro h; cases h)]
          simp [List.append_assoc]
        · simp only [if_neg hq] at hnl ⊢
          by_cases hn : (ins && c = '\n') = true
          · rw [if_pos hn] at hnl
            cases hnl
          · simp only [if_neg hn] at hnl ⊢
            rw [ih ins false (acc ++ [c]) ds hnl (by intro h; cases h)]
            simp [List.append_assoc]

/-- C2 (amended): the claim's single-exception frame property fails —
`fix_unclosed_strings_global` is not the only transform that rewrites
string interiors (see the counterexample).  This theorem gives the proven
frame behaviour of the two interior-editing transforms: on any text whose
string literals hold no raw newline, `fix_unclosed_strings_global`
returns the input itself except possibly dropping a dangling final
backslash and appending a missing closing quote as the automaton's end
state dictates (so its sole interior edit is the raw-newline escaping);
and `remove_duplicate_keys` re-serializes the whole document exactly when
the text strictly parses, which may rewrite the bytes inside surviving
string literals. -/
theorem C2_string_interior_frame :
    (∀ s : Text, noRawNlInStrings s false false = true →
      (fix_unclosed_strings_global s).1 =
        (if (scanSt s false false).2 = true then s.dropLast else s)
          ++ (if (scanSt s false false).1 = true then ['"'] else [])) ∧
    (∀ (s : Text) (v : Jv), loads s = .ok v →
      remove_duplicate_keys s = dumpsCF (s.length + 2) v) := by
  constructor
  · intro s hnl
    unfold fix_unclosed_strings_global
    rw [fugGo_frame s false false [] [] hnl (by intro h; cases h)]
    simp
  · intro s v h
    unfold remove_duplicate_keys
    rw [h]

/-- Witness for C2 at the unterminated input `"abc`: the closing quote is
appended, interiors untouched. -/
theorem C2_string_interior_frame_witness :
    (fix_unclosed_strings_global ("\"abc").data).1 =
      (if (scanSt ("\"abc").data false false).2 = true
        then ("\"abc").data.dropLast else ("\"abc").data)
        ++ (if (scanSt ("\"abc").data false false).1 = true then ['"'] else []) :=
  C2_string_interior_frame.1 ("\"abc").data (by decide)

/-- The interiors (bytes between the quotes) of the string literals of a
text, per scanner range. -/
def stringInteriors (s : Text) : List Text :=
  (_compute_string_ranges s).map fun p => (s.drop (p.1 + 1)).take (p.2 - p.1 - 1)

/-- C2 counterexample: `remove_duplicate_keys`, a transform other than
`fix_unclosed_strings_global`, changes the bytes inside a surviving string
literal: on the parsing text `["\/"]` the literal's interior `\/` becomes
`/` after re-serialization. -/
theorem C2_counterexample :
    loads ("[\"\\/\"]").data = .ok (Jv.arr [Jv.str (("/").data)]) ∧
    remove_duplicate_keys ("[\"\\/\"]").data = ("[\"/\"]").data ∧
    stringInteriors ("[\"\\/\"]").data = [("\\/").data] ∧
    stringInteriors (remove_duplicate_keys ("[\"\\/\"]").data) = [("/").data] := by
  refine ⟨by rfl, by decide, by decide, by decide⟩

/-- A position with a character is inside the text. -/
lemma at?_lt {s : Text} {k : Nat} {c : Char} (h : at? s k = some c) : k < s.length := by
  by_contra hk
  push_neg at hk
  unfold at? at h
  rw [List.drop_eq_nil_of_le hk] at h
  simp at h

/-- Invariant of the scanner loop `csrGo`: the accumulated ranges are
pairwise disjoint in strict order, well formed, bounded by the cursor,
each opens at a quote character, each closes at the first unescaped quote
after that opening, and the open string (if any) will close at
`strClose`. -/
lemma csrGo_inv (s : Text) :
    ∀ (rest : Text) (i : Nat) (ins esc : Bool) (start : Nat) (acc : List (Nat × Nat)),
      rest = s.drop i →
      (∀ p ∈ acc, p.1 < p.2 ∧ p.2 < i ∧ p.2 < s.length ∧ at? s p.1 = some '"' ∧
        at? s p.2 = some '"' ∧ p.2 = strClose s p.1) →
      List.Pairwise (fun p q => p.2 < q.1) acc →
      (ins = true → start < i ∧ at? s start = some '"' ∧ (∀ p ∈ acc, p.2 < start) ∧
        strCloseGo s.length (s.drop i) i esc = strClose s start) →
      List.Pairwise (fun p q => p.2 < q.1) (csrGo s.length rest i ins esc start acc) ∧
      ∀ p ∈ csrGo s.length rest i ins esc start acc,
        p.1 ≤ p.2 ∧ p.2 < s.length ∧ at? s p.1 = some '"' ∧ p.2 = strClose s p.1 ∧
          ((p.1 < p.2 ∧ at? s p.2 = some '"') ∨ p.2 = s.length - 1) := by
  intro rest
  induction rest with
  | nil =>
    intro i ins esc start acc hrest hI hP hS
    simp only [csrGo]
    split
    · rename_i hins
      obtain ⟨hlt, hq, hgt, hcl⟩ := hS hins
      have hstart_lt : start < s.length := at?_lt hq
      have hnilGo : ∀ e : Bool, strCloseGo s.length ([] : Text) i e = s.length - 1 := by
        intro e
        cases e <;> rfl
      have hterm : strClose s start = s.length - 1 := by
        rw [← hrest, hnilGo] at hcl
        exact hcl.symm
      constructor
      · refine List.pairwise_append.2 ⟨hP, List.pairwise_singleton _ _, ?_⟩
        intro p hp q hq2
        rw [List.mem_singleton] at hq2
        subst hq2
        exact hgt p hp
      · intro p hp
        rcases List.mem_append.1 hp with h | h
        · obtain ⟨h1, h2, h3, h4, h5, h6⟩ := hI p h
          exact ⟨by omega, h3, h4, h6, Or.inl ⟨h1, h5⟩⟩
        · rw [List.mem_singleton] at h
          subst h
          exact ⟨by omega, by omega, hq, hterm.symm, Or.inr rfl⟩
    · refine ⟨hP, ?_⟩
      intro p hp
      obtain ⟨h1, h2, h3, h4, h5, h6⟩ := hI p hp
      exact ⟨by omega, h3, h4, h6, Or.inl ⟨h1, h5⟩⟩
  | cons c rest' ih =>
    intro i ins esc start acc hrest hI hP hS
    have hi_lt : i < s.length := by
      have hlen : (s.drop i).length = rest'.length + 1 := by
        rw [← hrest]
        rfl
      rw [List.length_drop] at hlen
      omega
    have hat : at? s i = some c := by
      unfold at?
      rw [← hrest]
      rfl
    have hdrop : rest' = s.drop (i + 1) := by
      have h1 : s.drop (i + 1) = (s.drop i).tail := by
        rw [← List.drop_one, List.drop_drop]
      rw [h1, ← hrest]
      rfl
    have hI1 : ∀ p ∈ acc, p.1 < p.2 ∧ p.2 < i + 1 ∧ p.2 < s.length ∧
        at? s p.1 = some '"' ∧ at? s p.2 = some '"' ∧ p.2 = strClose s p.1 := by
      intro p hp
      obtain ⟨h1, h2, h3, h4, h5, h6⟩ := hI p hp
      exact ⟨h1, by omega, h3, h4, h5, h6⟩
    simp only [csrGo]
    split
    · rename_i hesc
      refine ih (i + 1) ins false start acc hdrop hI1 hP ?_
      intro h
      obtain ⟨h1, h2, h3, hcl⟩ := hS h
      refine ⟨by omega, h2, h3, ?_⟩
      rw [← hrest, hesc] at hcl
      rw [← hdrop]
      simpa [strCloseGo] using hcl
    · split
      · rename_i hesc hbs
        refine ih (i + 1) ins true start acc hdrop hI1 hP ?_
        intro h
        obtain ⟨h1, h2, h3, hcl⟩ := hS h
        refine ⟨by omega, h2, h3, ?_⟩
        have hescf : esc = false := by
          cases esc
          · rfl
          · exact absurd rfl hesc
        rw [← hrest, hescf, hbs] at hcl
        rw [← hdrop]
        simpa [strCloseGo] using hcl
      · split
        · rename_i hesc hbs hc
          split
          · rename_i hins
            obtain ⟨hlt, hq, hgt, hcl⟩ := hS hins
            have hescf : esc = false := by
              cases esc
              · rfl
              · exact absurd rfl hesc
            have hclose : strClose s start = i := by
              rw [← hrest, hescf, hc] at hcl
              simpa [strCloseGo] using hcl.symm
            refine ih (i + 1) false false 0 (acc ++ [(start, i)]) hdrop ?_ ?_ (by simp)
            · intro p hp
              rcases List.mem_append.1 hp with h | h
              · exact hI1 p h
              · rw [List.mem_singleton] at h
                subst h
                refine ⟨hlt, by omega, hi_lt, hq, ?_, hclose.symm⟩
                rw [hc] at hat
                exact hat
            · refine List.pairwise_append.2 ⟨hP, List.pairwise_singleton _ _, ?_⟩
              intro p hp q hq2
              rw [List.mem_singleton] at hq2
              subst hq2
              exact hgt p hp
          · rename_i hins
            refine ih (i + 1) true false i acc hdrop hI1 hP ?_
            intro _
            subst hc
            exact ⟨by omega, hat, fun p hp => (hI p hp).2.1, rfl⟩
        · rename_i hesc hbs hc
          refine ih (i + 1) ins esc start acc hdrop hI1 hP ?_
          intro h
          obtain ⟨h1, h2, h3, hcl⟩ := hS h
          refine ⟨by omega, h2, h3, ?_⟩
          have hescf : esc = false := by
            cases esc
            · rfl
            · exact absurd rfl hesc
          rw [← hrest, hescf] at hcl
          rw [← hdrop, hescf]
          simp only [strCloseGo] at hcl
          rw [if_neg hbs, if_neg hc] at hcl
          exact hcl

/-- C5 (amended): `_compute_string_ranges` returns a strictly ordered,
pairwise disjoint list of closed ranges `(start, end)` over code-point
positions: each range opens at a quote character, its end is exactly
`strClose` of its start — the first unescaped quote after the opening
quote, where a backslash consumes the next character, or `len - 1` for an
unterminated literal — so in particular the end is itself a quote
position beyond the start or the last index of the text, and
`_index_in_ranges` tests membership in these closed intervals
(`start ≤ idx ≤ end`), consistently with the ranges.  (The closing quote
position is `end` itself, not `end - 1`: the ranges are closed, not
half-open.) -/
theorem C5_string_ranges_spec (s : Text) :
    List.Pairwise (fun p q => p.2 < q.1) (_compute_string_ranges s) ∧
    (∀ p ∈ _compute_string_ranges s,
      p.1 ≤ p.2 ∧ p.2 < s.length ∧ at? s p.1 = some '"' ∧
      p.2 = strClose s p.1 ∧
      ((p.1 < p.2 ∧ at? s p.2 = some '"') ∨ p.2 = s.length - 1)) ∧
    (∀ idx, _index_in_ranges idx (_compute_string_ranges s) = true ↔
      ∃ p ∈ _compute_string_ranges s, p.1 ≤ idx ∧ idx ≤ p.2) := by
  have h := csrGo_inv s s 0 false false 0 [] (by simp) (by simp) (by simp) (by simp)
  refine ⟨h.1, h.2, ?_⟩
  intro idx
  unfold _index_in_ranges
  rw [List.any_eq_true]
  constructor
  · rintro ⟨p, hp, hb⟩
    rw [Bool.and_eq_true, decide_eq_true_iff, decide_eq_true_iff] at hb
    exact ⟨p, hp, hb⟩
  · rintro ⟨p, hp, h1, h2⟩
    exact ⟨p, hp, by rw [Bool.and_eq_true, decide_eq_true_iff, decide_eq_true_iff]; exact ⟨h1, h2⟩⟩

/-- Membership in the ranges read as half-open intervals
`start ≤ idx < end` (the spec's reading). -/
def halfOpenMember (idx : Nat) (ranges : List (Nat × Nat)) : Bool :=
  ranges.any fun p => decide (p.1 ≤ idx) && decide (idx < p.2)

/-- C5 counterexample: on the three-character text `"a"` the scanner
returns the single range `(0, 2)`; position 2 — the closing quote, part of
the literal — is a member for `_index_in_ranges`, but not under the
half-open reading `[start, end)` claimed by the spec, so the ranges are
closed intervals, not half-open ones covering both quotes. -/
theorem C5_string_ranges_counterexample :
    _compute_string_ranges ("\"a\"").data = [(0, 2)] ∧
    _index_in_ranges 2 (_compute_string_ranges ("\"a\"").data) = true ∧
    halfOpenMember 2 (_compute_string_ranges ("\"a\"").data) = false := by
  refine ⟨by decide, by decide, by decide⟩

/-- Well-formed match list: starts at or after `lo`, each span non-empty
and within the text, each replacement strictly shorter than its span,
spans in ascending non-overlapping order. -/
def MW (len : Nat) : Nat → List RMatch → Prop
  | _, [] => True
  | lo, (a, b, r) :: ms => lo ≤ a ∧ a < b ∧ b ≤ len ∧ r.length < b - a ∧ MW len b ms

/-- The lower bound of a well-formed match list weakens. -/
lemma MW_mono {len : Nat} {ms : List RMatch} {lo lo' : Nat}
    (h : lo ≤ lo') (hm : MW len lo' ms) : MW len lo ms := by
  cases ms with
  | nil => trivial
  | cons m tail =>
    obtain ⟨ma, mb, mr⟩ := m
    obtain ⟨h1, h2, h3, h4, h5⟩ := hm
    exact ⟨by omega, h2, h3, h4, h5⟩

/-- Filtering keeps a match list well formed. -/
lemma MW_filter {len : Nat} (pred : RMatch → Bool) :
    ∀ (ms : List RMatch) (lo : Nat), MW len lo ms → MW len lo (ms.filter pred) := by
  intro ms
  induction ms with
  | nil => intro lo _; trivial
  | cons m tail ih =>
    intro lo hm
    obtain ⟨ma, mb, mr⟩ := m
    obtain ⟨h1, h2, h3, h4, h5⟩ := hm
    by_cases hp : pred (ma, mb, mr) = true
    · rw [List.filter_cons_of_pos hp]
      exact ⟨h1, h2, h3, h4, ih mb h5⟩
    · rw [List.filter_cons_of_neg (by simpa using hp)]
      exact MW_mono (by omega) (ih mb h5)

/-- Splicing a well-formed match list never lengthens the remaining
text. -/
lemma subFrom_len_le (s : Text) :
    ∀ (ms : List RMatch) (lo : Nat), MW s.length lo ms → lo ≤ s.length →
      (subFrom s lo ms).length ≤ s.length - lo := by
  intro ms
  induction ms with
  | nil =>
    intro lo _ _
    simp [subFrom]
  | cons m tail ih =>
    intro lo hm hlo
    obtain ⟨ma, mb, mr⟩ := m
    obtain ⟨h1, h2, h3, h4, h5⟩ := hm
    have hrec := ih mb h5 (by omega)
    simp only [subFrom, List.length_append, List.length_take, List.length_drop]
    omega

/-- Splicing a non-empty well-formed match list strictly shortens the
remaining text. -/
lemma subFrom_len_lt (s : Text) {ms : List RMatch} {lo : Nat}
    (hne : ms ≠ []) (hm : MW s.length lo ms) (hlo : lo ≤ s.length) :
    (subFrom s lo ms).length < s.length - lo := by
  cases ms with
  | nil => exact absurd rfl hne
  | cons m tail =>
    obtain ⟨ma, mb, mr⟩ := m
    obtain ⟨h1, h2, h3, h4, h5⟩ := hm
    have hrec := subFrom_len_le s tail mb h5 (by omega)
    simp only [subFrom, List.length_append, List.length_take, List.length_drop]
    omega

/-- A position without a character is beyond the text. -/
lemma at?_none {s : Text} {k : Nat} (h : at? s k = none) : s.length ≤ k := by
  by_contra hk
  push_neg at hk
  unfold at? at h
  rw [List.head?_eq_none_iff] at h
  rw [List.drop_eq_nil_iff] at h
  omega

/-- The matches produced by the trailing-comma scanner are well formed. -/
lemma ftcGo_MW (s : Text) :
    ∀ (fuel lo : Nat), MW s.length lo (ftcGo s fuel lo) := by
  intro fuel
  induction fuel with
  | zero => intro lo; trivial
  | succ f ih =>
    intro lo
    unfold ftcGo
    rcases hc : at? s lo with _ | c
    · trivial
    · dsimp only
      split
      · rcases hd : at? s (skipFrom reWs s (lo + 1)) with _ | d
        · exact MW_mono (by omega) (ih (lo + 1))
        · dsimp only
          split
          · rename_i hbr
            have hjlo : lo + 1 ≤ skipFrom reWs s (lo + 1) := by
              unfold skipFrom
              omega
            have hjlt : skipFrom reWs s (lo + 1) < s.length := at?_lt hd
            exact ⟨by omega, by omega, by omega, by simp; omega,
              ih (skipFrom reWs s (lo + 1) + 1)⟩
          · exact MW_mono (by omega) (ih (lo + 1))
      · exact MW_mono (by omega) (ih (lo + 1))

/-- A changing substitution round strictly shrinks the text. -/
lemma subTrailing_shrink {s : Text} (h : subTrailing s ≠ s) :
    (subTrailing s).length < s.length := by
  rcases hnil : (findTrailingComma s).filter
      (fun m => !_index_in_ranges m.1 (_compute_string_ranges s)) with _ | ⟨m, tail⟩
  · exfalso
    apply h
    unfold subTrailing _sub_outside_strings
    rw [hnil]
    simp [subFrom]
  · have hMW : MW s.length 0 ((findTrailingComma s).filter
        (fun m => !_index_in_ranges m.1 (_compute_string_ranges s))) := by
      apply MW_filter
      unfold findTrailingComma
      exact ftcGo_MW s (s.length + 1) 0
    have hlt := subFrom_len_lt s (by rw [hnil]; simp) hMW (Nat.zero_le s.length)
    unfold subTrailing _sub_outside_strings
    omega

/-- With fuel above the text length, the substitution loop reaches its
fix-point. -/
lemma rtcGo_fix : ∀ (fuel : Nat) (s : Text), s.length < fuel →
    subTrailing (rtcGo fuel s) = rtcGo fuel s := by
  intro fuel
  induction fuel with
  | zero => intro s h; omega
  | succ f ih =>
    intro s h
    unfold rtcGo
    dsimp only
    by_cases he : subTrailing s = s
    · rw [if_pos he]
      exact he
    · rw [if_neg he]
      exact ih (subTrailing s) (by have := subTrailing_shrink he; omega)

/-- The trailing-comma pattern of `RE_TRAILING_COMMA` stands at `i`: a
comma whose next non-whitespace character is a closing bracket. -/
def trailingCommaAt (s : Text) (i : Nat) : Bool :=
  decide (at? s i = some ',') &&
    (decide (at? s (skipFrom reWs s (i + 1)) = some '}') ||
     decide (at? s (skipFrom reWs s (i + 1)) = some ']'))

/-- Unpacking of `trailingCommaAt`. -/
lemma trailingCommaAt_spec {s : Text} {i : Nat} (h : trailingCommaAt s i = true) :
    at? s i = some ',' ∧
      (at? s (skipFrom reWs s (i + 1)) = some '}' ∨
       at? s (skipFrom reWs s (i + 1)) = some ']') := by
  unfold trailingCommaAt at h
  rw [Bool.and_eq_true, Bool.or_eq_true] at h
  exact ⟨of_decide_eq_true h.1,
    h.2.elim (fun x => Or.inl (of_decide_eq_true x))
      (fun x => Or.inr (of_decide_eq_true x))⟩

/-- Every position strictly inside a leading run counted by `skipCount`
satisfies the predicate. -/
lemma skipCount_mem (p : Char → Bool) :
    ∀ (l : Text) (m : Nat), m < skipCount p l → (at? l m).any p = true := by
  intro l
  induction l with
  | nil => intro m h; simp [skipCount] at h
  | cons c t ih =>
    intro m h
    unfold skipCount at h
    by_cases hp : p c = true
    · rw [if_pos hp] at h
      cases m with
      | zero => simpa [at?] using hp
      | succ k =>
        have hk := ih k (by omega)
        simpa [at?] using hk
    · rw [if_neg hp] at h
      omega

/-- Every position passed over by `skipFrom` holds a character satisfying
the predicate. -/
lemma skipFrom_mem (p : Char → Bool) (s : Text) (i k : Nat)
    (h1 : i ≤ k) (h2 : k < skipFrom p s i) : (at? s k).any p = true := by
  have h3 : k - i < skipCount p (s.drop i) := by
    unfold skipFrom at h2
    omega
  have h4 := skipCount_mem p (s.drop i) (k - i) h3
  have he : at? (s.drop i) (k - i) = at? s k := by
    unfold at?
    rw [List.drop_drop]
    have hki : i + (k - i) = k := by omega
    rw [hki]
  rw [he] at h4
  exact h4

/-- Completeness of the trailing-comma scanner: every pattern position at
or beyond the scan point is the start of some emitted match. -/
lemma ftcGo_complete (s : Text) :
    ∀ (fuel lo i : Nat), s.length + 1 ≤ fuel + lo → lo ≤ i →
      trailingCommaAt s i = true →
      ∃ b r, (i, b, r) ∈ ftcGo s fuel lo := by
  intro fuel
  induction fuel with
  | zero =>
    intro lo i hf hli hTC
    exfalso
    have hci := (trailingCommaAt_spec hTC).1
    have := at?_lt hci
    omega
  | succ f ih =>
    intro lo i hf hli hTC
    have hci := (trailingCommaAt_spec hTC).1
    unfold ftcGo
    rcases hc : at? s lo with _ | c
    · exfalso
      have h1 := at?_none hc
      have h2 := at?_lt hci
      omega
    · dsimp only
      by_cases hcm : c = ','
      · rw [if_pos hcm]
        rcases hd : at? s (skipFrom reWs s (lo + 1)) with _ | d
        · have hne2 : i ≠ lo := by
            intro he
            rcases (trailingCommaAt_spec hTC).2 with hbr | hbr <;>
              · rw [he] at hbr
                rw [hd] at hbr
                simp at hbr
          exact ih (lo + 1) i (by omega) (by omega) hTC
        · dsimp only
          split
          · rename_i hbr2
            by_cases hei : i = lo
            · subst hei
              exact ⟨skipFrom reWs s (i + 1) + 1, [d], List.mem_cons_self _ _⟩
            · have hjlo : lo + 1 ≤ skipFrom reWs s (lo + 1) := by
                unfold skipFrom
                omega
              have hige : skipFrom reWs s (lo + 1) + 1 ≤ i := by
                rcases Nat.lt_or_ge i (skipFrom reWs s (lo + 1) + 1) with hlt | hge
                · exfalso
                  have hi1 : lo + 1 ≤ i := by
                    rcases Nat.eq_or_lt_of_le hli with he | hlt2
                    · exact absurd he.symm hei
                    · omega
                  by_cases hij : i = skipFrom reWs s (lo + 1)
                  · rw [hij] at hci
                    rw [hd] at hci
                    have hdc : d = ',' := by
                      injection hci
                    rw [hdc] at hbr2
                    simp at hbr2
                  · have hws := skipFrom_mem reWs s (lo + 1) i hi1 (by omega)
                    rw [hci] at hws
                    exact absurd hws (by decide)
                · exact hge
              obtain ⟨b, r, hmem⟩ :=
                ih (skipFrom reWs s (lo + 1) + 1) i (by omega) hige hTC
              exact ⟨b, r, List.mem_cons_of_mem _ hmem⟩
          · rename_i hbr2
            have hne2 : i ≠ lo := by
              intro he
              apply hbr2
              rcases (trailingCommaAt_spec hTC).2 with hbr | hbr <;>
                · rw [he] at hbr
                  rw [hd] at hbr
                  injection hbr with hdd
                  rw [hdd]
                  decide
            exact ih (lo + 1) i (by omega) (by omega) hTC
      · rw [if_neg hcm]
        have hne2 : i ≠ lo := by
          intro he
          rw [he] at hci
          rw [hc] at hci
          injection hci with hcc
          exact hcm hcc
        exact ih (lo + 1) i (by omega) (by omega) hTC

/-- C8: the while-loop of `remove_trailing_commas` reaches its fix-point
within the modelled fuel bound (a further substitution round returns the
output unchanged), and every trailing-comma pattern — a comma followed by
optional whitespace and a closing bracket — remaining in the output has
its comma inside a string-literal range. -/
theorem C8_remove_trailing_commas_fixpoint (s : Text) :
    subTrailing (remove_trailing_commas s) = remove_trailing_commas s ∧
    ∀ i, trailingCommaAt (remove_trailing_commas s) i = true →
      _index_in_ranges i (_compute_string_ranges (remove_trailing_commas s)) = true := by
  have hfix : subTrailing (remove_trailing_commas s) = remove_trailing_commas s := by
    unfold remove_trailing_commas
    exact rtcGo_fix (s.length + 1) s (by omega)
  refine ⟨hfix, ?_⟩
  intro i hTC
  by_contra hout
  obtain ⟨b, r, hmem⟩ := ftcGo_complete (remove_trailing_commas s)
    ((remove_trailing_commas s).length + 1) 0 i (by omega) (Nat.zero_le i) hTC
  have hkept : ((i, b, r) : RMatch) ∈
      (findTrailingComma (remove_trailing_commas s)).filter
        (fun m => !_index_in_ranges m.1
          (_compute_string_ranges (remove_trailing_commas s))) := by
    rw [List.mem_filter]
    refine ⟨?_, ?_⟩
    · unfold findTrailingComma
      exact hmem
    · show (!_index_in_ranges i
        (_compute_string_ranges (remove_trailing_commas s))) = true
      have hf : _index_in_ranges i
          (_compute_string_ranges (remove_trailing_commas s)) = false :=
        Bool.eq_false_iff.mpr hout
      rw [hf]
      rfl
  have hne : (findTrailingComma (remove_trailing_commas s)).filter
      (fun m => !_index_in_ranges m.1
        (_compute_string_ranges (remove_trailing_commas s))) ≠ [] :=
    List.ne_nil_of_mem hkept
  have hMW : MW (remove_trailing_commas s).length 0
      ((findTrailingComma (remove_trailing_commas s)).filter
        (fun m => !_index_in_ranges m.1
          (_compute_string_ranges (remove_trailing_commas s)))) := by
    apply MW_filter
    unfold findTrailingComma
    exact ftcGo_MW (remove_trailing_commas s) ((remove_trailing_commas s).length + 1) 0
  have hlt := subFrom_len_lt (remove_trailing_commas s) hne hMW (Nat.zero_le _)
  have hlt2 : (subTrailing (remove_trailing_commas s)).length <
      (remove_trailing_commas s).length := by
    unfold subTrailing _sub_outside_strings
    omega
  rw [hfix] at hlt2
  omega

/-- Witness for C8 at a concrete input: a trailing-comma pattern inside a
string literal survives `remove_trailing_commas`, and the theorem places
it inside a string range. -/
theorem C8_remove_trailing_commas_fixpoint_witness :
    trailingCommaAt (remove_trailing_commas (("\x7b\"a\": \",]\"\x7d").data)) 7 = true ∧
    _index_in_ranges 7 (_compute_string_ranges
      (remove_trailing_commas (("\x7b\"a\": \",]\"\x7d").data))) = true :=
  ⟨by decide,
    (C8_remove_trailing_commas_fixpoint (("\x7b\"a\": \",]\"\x7d").data)).2 7 (by decide)⟩

/-- C10: `truncate_after_last_container_close` and
`truncate_around_error_position` each return the input or a prefix of it:
the returned text is always `s.take k` for some `k`, so no character is
inserted, replaced or reordered. -/
theorem C10_truncations_only_shorten (s err : Text) :
    (∃ k, (truncate_after_last_container_close s).1 = s.take k) ∧
    (∃ k, (truncate_around_error_position s err).1 = s.take k) := by
  refine ⟨tAfter_take s, ?_⟩
  unfold truncate_around_error_position
  rcases findCharNum err with _ | pos
  · exact ⟨s.length, by simp⟩
  · dsimp only
    split
    · exact ⟨s.length, by simp⟩
    · obtain ⟨k, hk⟩ := tAfter_take (s.take pos)
      split
      · exact ⟨min k pos, by rw [hk, List.take_take]⟩
      · exact ⟨s.length, by simp⟩

end JsonRepair
